import Mathlib

/-!
Shallow embedding of `mule_analyzer/parser.py` (Mule XML to graph JSON)
and proofs about the claims of its specification.

Modelling conventions:
* Python dictionaries that carry the JSON output are modelled by `JVal.obj`,
  an ordered association list of string keys to JSON values, mirroring the
  insertion order of the Python code.
* `xml.etree.ElementTree` elements are modelled by `Elem`: a tag, an ordered
  attribute list, optional text, and a list of child elements.  The XML text
  to tree step (`ET.fromstring`) and the namespace pre-scan
  (`collect_namespaces`, built by a streaming scan of the raw text) are
  library code outside the transformation core; the tree and the namespace
  map are therefore inputs of the embedded `parse_mule_xml`.
* Mutable state (`NodeLookup.assumptions`, Python exceptions) is modelled by
  the monad `PM := StateT (List String) (Except String)`: the state is the
  growing assumptions list, the exception is a raised Python error.
-/

namespace MuleAnalyzer

/-- JSON-like values: the dynamic `SchemaDict` dictionaries of the Python
code.  Object fields are kept in insertion order. -/
inductive JVal where
  | s (v : String)
  | i (v : Int)
  | b (v : Bool)
  | null
  | arr (items : List JVal)
  | obj (fields : List (String × JVal))
deriving Repr

mutual

/-- Boolean equality on `JVal` (structural). -/
def JVal.beq : JVal → JVal → Bool
  | .s x, .s y => x == y
  | .i x, .i y => x == y
  | .b x, .b y => x == y
  | .null, .null => true
  | .arr xs, .arr ys => JVal.beqList xs ys
  | .obj fs, .obj gs => JVal.beqFields fs gs
  | _, _ => false

/-- Boolean equality on lists of `JVal`. -/
def JVal.beqList : List JVal → List JVal → Bool
  | [], [] => true
  | x :: xs, y :: ys => JVal.beq x y && JVal.beqList xs ys
  | _, _ => false

/-- Boolean equality on `JVal` object field lists. -/
def JVal.beqFields : List (String × JVal) → List (String × JVal) → Bool
  | [], [] => true
  | (k, v) :: fs, (l, w) :: gs =>
      k == l && JVal.beq v w && JVal.beqFields fs gs
  | _, _ => false

end

mutual

theorem JVal.beq_iff : ∀ (a b : JVal), JVal.beq a b = true ↔ a = b
  | .s _, .s _ => by simp [JVal.beq]
  | .s _, .i _ => by simp [JVal.beq]
  | .s _, .b _ => by simp [JVal.beq]
  | .s _, .null => by simp [JVal.beq]
  | .s _, .arr _ => by simp [JVal.beq]
  | .s _, .obj _ => by simp [JVal.beq]
  | .i _, .s _ => by simp [JVal.beq]
  | .i _, .i _ => by simp [JVal.beq]
  | .i _, .b _ => by simp [JVal.beq]
  | .i _, .null => by simp [JVal.beq]
  | .i _, .arr _ => by simp [JVal.beq]
  | .i _, .obj _ => by simp [JVal.beq]
  | .b _, .s _ => by simp [JVal.beq]
  | .b _, .i _ => by simp [JVal.beq]
  | .b _, .b _ => by simp [JVal.beq]
  | .b _, .null => by simp [JVal.beq]
  | .b _, .arr _ => by simp [JVal.beq]
  | .b _, .obj _ => by simp [JVal.beq]
  | .null, .s _ => by simp [JVal.beq]
  | .null, .i _ => by simp [JVal.beq]
  | .null, .b _ => by simp [JVal.beq]
  | .null, .null => by simp [JVal.beq]
  | .null, .arr _ => by simp [JVal.beq]
  | .null, .obj _ => by simp [JVal.beq]
  | .arr _, .s _ => by simp [JVal.beq]
  | .arr _, .i _ => by simp [JVal.beq]
  | .arr _, .b _ => by simp [JVal.beq]
  | .arr _, .null => by simp [JVal.beq]
  | .arr xs, .arr ys => by
      have h := JVal.beqList_iff xs ys
      simp [JVal.beq, h]
  | .arr _, .obj _ => by simp [JVal.beq]
  | .obj _, .s _ => by simp [JVal.beq]
  | .obj _, .i _ => by simp [JVal.beq]
  | .obj _, .b _ => by simp [JVal.beq]
  | .obj _, .null => by simp [JVal.beq]
  | .obj _, .arr _ => by simp [JVal.beq]
  | .obj fs, .obj gs => by
      have h := JVal.beqFields_iff fs gs
      simp [JVal.beq, h]

theorem JVal.beqList_iff : ∀ (xs ys : List JVal), JVal.beqList xs ys = true ↔ xs = ys
  | [], [] => by simp [JVal.beqList]
  | [], _ :: _ => by simp [JVal.beqList]
  | _ :: _, [] => by simp [JVal.beqList]
  | x :: xs, y :: ys => by
      have h1 := JVal.beq_iff x y
      have h2 := JVal.beqList_iff xs ys
      simp [JVal.beqList, h1, h2]

theorem JVal.beqFields_iff :
    ∀ (fs gs : List (String × JVal)), JVal.beqFields fs gs = true ↔ fs = gs
  | [], [] => by simp [JVal.beqFields]
  | [], _ :: _ => by simp [JVal.beqFields]
  | _ :: _, [] => by simp [JVal.beqFields]
  | (k, v) :: fs, (l, w) :: gs => by
      have h1 := JVal.beq_iff v w
      have h2 := JVal.beqFields_iff fs gs
      simp [JVal.beqFields, h1, h2, and_assoc]

end

instance : DecidableEq JVal :=
  fun a b => decidable_of_iff (JVal.beq a b = true) (JVal.beq_iff a b)

/-- An XML element as exposed by `xml.etree.ElementTree`: tag, ordered
attribute dictionary, text content, child elements. -/
inductive Elem where
  | mk (tag : String) (attrib : List (String × String)) (text : Option String)
       (children : List Elem)
deriving Repr

def Elem.tag : Elem → String
  | .mk t _ _ _ => t

def Elem.attrib : Elem → List (String × String)
  | .mk _ a _ _ => a

def Elem.text : Elem → Option String
  | .mk _ _ x _ => x

def Elem.children : Elem → List Elem
  | .mk _ _ _ cs => cs

/-- Python `dict.get(key)` on an ordered dictionary (keys unique by
construction, first match wins). -/
def dictGet {β : Type} (d : List (String × β)) (k : String) : Option β :=
  (d.find? (fun p => p.1 = k)).map (fun p => p.2)

/-- Python `dict[key] = value`: overwrite in place if the key exists,
else append. -/
def dictInsert {β : Type} (d : List (String × β)) (k : String) (v : β) :
    List (String × β) :=
  if d.any (fun p => p.1 = k) then
    d.map (fun p => if p.1 = k then (k, v) else p)
  else d ++ [(k, v)]

/-- Python truthiness of an optional string (`if value:`): `None` and the
empty string are falsy. -/
def truthy : Option String → Bool
  | none => false
  | some s => s ≠ ""

/-- Python `a or b` on optional strings: the first operand if truthy, else
the second. -/
def pyOr (a b : Option String) : Option String :=
  match a with
  | some s => if s ≠ "" then some s else b
  | none => b

mutual

/-- Python `Element.iter()`: the element itself followed by all descendants,
in document (preorder depth-first) order. -/
def Elem.iterAll : Elem → List Elem
  | .mk t a x cs => .mk t a x cs :: Elem.iterList cs
termination_by structural e => e

/-- Concatenation of `Elem.iterAll` over a list of elements. -/
def Elem.iterList : List Elem → List Elem
  | [] => []
  | c :: cs => Elem.iterAll c ++ Elem.iterList cs
termination_by structural l => l

end

/-- ASCII whitespace recognized by Python `str.strip()` and `int()`. -/
def isPyWs (c : Char) : Bool :=
  c = ' ' || c = Char.ofNat 9 || c = Char.ofNat 10 || c = Char.ofNat 13 ||
  c = Char.ofNat 11 || c = Char.ofNat 12

/-- Python `str.strip()` on a character list. -/
def pyStripChars (cs : List Char) : List Char :=
  ((cs.dropWhile isPyWs).reverse.dropWhile isPyWs).reverse

/-- Python `str.strip()` (ASCII whitespace; the inputs of this code base are
ASCII). -/
def pyStrip (s : String) : String :=
  String.mk (pyStripChars s.toList)

/-- Digit-sequence acceptor of CPython `int()`: decimal digits with single
underscores allowed between digits.  `prevDigit` records whether the previous
character was a digit. -/
def pyDigits : List Char → Nat → Bool → Option Nat
  | [], acc, prevDigit => if prevDigit then some acc else none
  | c :: cs, acc, prevDigit =>
      if c.isDigit then pyDigits cs (acc * 10 + (c.toNat - 48)) true
      else if c = Char.ofNat 95 && prevDigit then pyDigits cs acc false
      else none

/-- CPython `int(s)` (base 10): optional surrounding whitespace, optional
sign, then decimal digits with optional single underscores between digits.
Returns `none` where CPython raises `ValueError`.  (Non-ASCII digits are not
modelled; the code base only feeds it ASCII attribute values.) -/
def pythonInt (str : String) : Option Int :=
  match pyStripChars str.toList with
  | '+' :: rest => (pyDigits rest 0 false).map Int.ofNat
  | '-' :: rest => (pyDigits rest 0 false).map (fun n => -(n : Int))
  | rest => (pyDigits rest 0 false).map Int.ofNat

/-- Python `str.startswith(pre)` (character-list based, so that it reduces
in the kernel). -/
def pyStartsWith (s pre : String) : Bool :=
  pre.toList.isPrefixOf s.toList

/-- Python `str.endswith(suf)` (character-list based). -/
def pyEndsWith (s suf : String) : Bool :=
  suf.toList.isSuffixOf s.toList

/-- Split a character list at the first occurrence of `c`, dropping `c`
(Python `split(c, 1)` when it succeeds). -/
def splitAfterChar (c : Char) : List Char → Option (List Char × List Char)
  | [] => none
  | x :: xs =>
      if x = c then some ([], xs)
      else
        match splitAfterChar c xs with
        | some (pre, post) => some (x :: pre, post)
        | none => none

/-- Python `local_name(tag)`: strip a leading namespace decoration.  On a tag
starting with an opening brace but containing no closing brace CPython raises
`IndexError`; such tags cannot arise from a parsed XML tree, and the
embedding returns the tag unchanged there. -/
def local_name (tag : String) : String :=
  match tag.toList with
  | c :: _ =>
      if c = Char.ofNat 123 then
        match splitAfterChar (Char.ofNat 125) tag.toList with
        | some (_, post) => String.mk post
        | none => tag
      else tag
  | [] => tag

/-- Python `qualified_name(tag, namespace_map)`: resolve a namespace-decorated
tag to a prefixed name via the URI-to-prefix map.  The unpacking
`uri, local = tag[1:].split(CLOSEBRACE, 1)` raises `ValueError` when the tag
has no closing brace, so the embedding is in `Except`. -/
def qualified_name (tag : String) (namespace_map : List (String × String)) :
    Except String String :=
  match tag.toList with
  | c :: rest =>
      if c = Char.ofNat 123 then
        match splitAfterChar (Char.ofNat 125) rest with
        | some (uriCs, localCs) =>
            let localPart := String.mk localCs
            match dictGet namespace_map (String.mk uriCs) with
            | some pfx =>
                if pfx = "" then .ok localPart
                else .ok (pfx ++ ":" ++ localPart)
            | none => .ok localPart
        | none => .error "ValueError: not enough values to unpack (expected 2, got 1)"
      else .ok tag
  | [] => .ok tag

/-- The monad of the embedded parser: mutable assumptions list plus Python
exceptions.  A computation takes the current assumptions and either raises or
returns a value with the updated assumptions. -/
def PM (α : Type) : Type := List String → Except String (α × List String)

instance : Monad PM where
  pure a := fun st => .ok (a, st)
  bind m k := fun st =>
    match m st with
    | .ok (a, st') => k a st'
    | .error msg => .error msg

/-- Raise a Python exception inside the parse. -/
def pyRaise {α : Type} (msg : String) : PM α :=
  fun _ => .error msg

/-- Lift a fallible pure computation into `PM`. -/
def liftE {α : Type} (e : Except String α) : PM α :=
  fun st =>
    match e with
    | .ok a => .ok (a, st)
    | .error m => .error m

/-- The `NodeLookup` dataclass: name-to-identifier maps for flows and
subflows.  Its mutable `assumptions` list lives in the `PM` state. -/
structure NodeLookup where
  flows : List (String × String)
  subflows : List (String × String)

/-- `NodeLookup.resolve(name)`: flow id, else subflow id, else a synthesized
fallback id plus one recorded assumption. -/
def NodeLookup.resolve (lookup : NodeLookup) (name : String) : PM String :=
  fun assumptions =>
    match dictGet lookup.flows name with
    | some v => .ok (v, assumptions)
    | none =>
        match dictGet lookup.subflows name with
        | some v => .ok (v, assumptions)
        | none =>
            .ok ("flow://" ++ name,
              assumptions ++
                ["Reference to unknown flow or subflow \x27" ++ name ++ "\x27"])

/-- Truncation to 32 bits. -/
def m32 (n : Nat) : Nat := n % 4294967296

/-- Rotate a 32-bit word left by `k`. -/
def rotl32 (k x : Nat) : Nat :=
  ((x <<< k) % 4294967296) ||| (x >>> (32 - k))

/-- UTF-8 bytes of a string (`str.encode()` in Python). -/
def utf8Bytes (str : String) : List Nat :=
  str.toUTF8.toList.map (fun byte => byte.toNat)

/-- SHA-1 message padding: append `0x80`, zero bytes up to 56 mod 64, then
the bit length as 8 big-endian bytes. -/
def sha1Pad (msg : List Nat) : List Nat :=
  let len := msg.length
  let zeros := (120 - ((len + 1) % 64)) % 64
  msg ++ [128] ++ List.replicate zeros 0 ++
    (List.range 8).map (fun idx => ((len * 8) >>> ((7 - idx) * 8)) % 256)

/-- Split a byte list into 64-byte chunks. -/
def chunks64 (l : List Nat) : List (List Nat) :=
  if _h : l = [] then []
  else l.take 64 :: chunks64 (l.drop 64)
termination_by l.length
decreasing_by
  have : l.length ≠ 0 := fun hl => _h (List.eq_nil_of_length_eq_zero hl)
  simp only [List.length_drop]
  omega

/-- The sixteen 32-bit big-endian words of one 64-byte chunk. -/
def chunkWords (chunk : List Nat) : Array Nat :=
  ((List.range 16).map (fun idx =>
    chunk.getD (4 * idx) 0 * 16777216 + chunk.getD (4 * idx + 1) 0 * 65536 +
    chunk.getD (4 * idx + 2) 0 * 256 + chunk.getD (4 * idx + 3) 0)).toArray

/-- SHA-1 message-schedule extension from 16 to 80 words. -/
def extendWords (ws : Array Nat) : Array Nat :=
  (List.range 64).foldl
    (fun arr idx =>
      let j := idx + 16
      arr.push (rotl32 1
        (arr.getD (j - 3) 0 ^^^ arr.getD (j - 8) 0 ^^^
         arr.getD (j - 14) 0 ^^^ arr.getD (j - 16) 0)))
    ws

/-- SHA-1 round function. -/
def sha1F (t bb cc dd : Nat) : Nat :=
  if t < 20 then (bb &&& cc) ||| ((bb ^^^ 4294967295) &&& dd)
  else if t < 40 then bb ^^^ cc ^^^ dd
  else if t < 60 then (bb &&& cc) ||| (bb &&& dd) ||| (cc &&& dd)
  else bb ^^^ cc ^^^ dd

/-- SHA-1 round constant. -/
def sha1K (t : Nat) : Nat :=
  if t < 20 then 1518500249
  else if t < 40 then 1859775393
  else if t < 60 then 2400959708
  else 3395469782

/-- SHA-1 compression of one 64-byte chunk into the running state. -/
def sha1Compress (state : Nat × Nat × Nat × Nat × Nat) (chunk : List Nat) :
    Nat × Nat × Nat × Nat × Nat :=
  let ws := extendWords (chunkWords chunk)
  let (h0, h1, h2, h3, h4) := state
  let final :=
    (List.range 80).foldl
      (fun st t =>
        let (a, bb, cc, dd, e) := st
        let tmp := m32 (rotl32 5 a + sha1F t bb cc dd + e + sha1K t + ws.getD t 0)
        (tmp, a, rotl32 30 bb, cc, dd))
      (h0, h1, h2, h3, h4)
  let (a, bb, cc, dd, e) := final
  (m32 (h0 + a), m32 (h1 + bb), m32 (h2 + cc), m32 (h3 + dd), m32 (h4 + e))

/-- Lowercase hex digit. -/
def hexDigit (n : Nat) : Char :=
  if n < 10 then Char.ofNat (48 + n) else Char.ofNat (87 + n)

/-- A 32-bit word as 8 lowercase hex characters. -/
def toHex8 (n : Nat) : String :=
  String.mk ((List.range 8).map (fun idx => hexDigit ((n >>> ((7 - idx) * 4)) &&& 15)))

/-- Python `sha1(body.encode()).hexdigest()`. -/
def sha1Hex (body : String) : String :=
  let (h0, h1, h2, h3, h4) :=
    (chunks64 (sha1Pad (utf8Bytes body))).foldl sha1Compress
      (1732584193, 4023233417, 2562383102, 271733878, 3285377520)
  toHex8 h0 ++ toHex8 h1 ++ toHex8 h2 ++ toHex8 h3 ++ toHex8 h4

/-- Python truthiness of a `JVal` (empty containers, empty strings, zero,
`False` and `None` are falsy). -/
def jTruthy : JVal → Bool
  | .null => false
  | .s v => v ≠ ""
  | .i v => v ≠ 0
  | .b v => v
  | .arr l => l ≠ []
  | .obj l => l ≠ []

/-- An optional condition string as stored into a Python dict (`None` becomes
JSON null). -/
def optStr : Option String → JVal
  | some v => .s v
  | none => .null

/-- The result record of `parse_processor`. -/
structure ProcessorParseResult where
  processor : JVal
  edges : List JVal

/-- The `targets` loop of `collect_branch_targets` over the flattened
`elem.iter()` sequence. -/
def branchTargetsGo (lookup : NodeLookup) : List Elem → PM (List String)
  | [] => pure []
  | candidate :: rest =>
      if local_name candidate.tag = "flow-ref" then
        match dictGet candidate.attrib "name" with
        | some n =>
            if n ≠ "" then do
              let t ← lookup.resolve n
              let ts ← branchTargetsGo lookup rest
              pure (t :: ts)
            else branchTargetsGo lookup rest
        | none => branchTargetsGo lookup rest
      else branchTargetsGo lookup rest

/-- Python `collect_branch_targets(elem, lookup)`: every descendant
`flow-ref` name resolved, in document order. -/
def collect_branch_targets (elem : Elem) (lookup : NodeLookup) :
    PM (List String) :=
  branchTargetsGo lookup elem.iterAll

/-- The per-child loop of `extract_branches` over a `choice` element's
children. -/
def branchesGo (lookup : NodeLookup) : List Elem → PM (List JVal × List JVal)
  | [] => pure ([], [])
  | child :: rest =>
      if local_name child.tag = "when" then do
        let condition :=
          pyOr (dictGet child.attrib "expression") (dictGet child.attrib "condition")
        let targets ← collect_branch_targets child lookup
        let branch := JVal.obj
          [("when", optStr condition), ("targets", JVal.arr (targets.map JVal.s))]
        let (bs, es) ← branchesGo lookup rest
        pure (branch :: bs,
          targets.map (fun t =>
            JVal.obj [("to", JVal.s t), ("via", JVal.s "choice.when")]) ++ es)
      else if local_name child.tag = "otherwise" then do
        let targets ← collect_branch_targets child lookup
        let branch := JVal.obj
          [("otherwise", JVal.b true), ("targets", JVal.arr (targets.map JVal.s))]
        let (bs, es) ← branchesGo lookup rest
        pure (branch :: bs,
          targets.map (fun t =>
            JVal.obj [("to", JVal.s t), ("via", JVal.s "choice.otherwise")]) ++ es)
      else branchesGo lookup rest

/-- Python `extract_branches(elem, lookup, namespace_map)`: branch
descriptors and edges, produced only for `choice` elements. -/
def extract_branches (elem : Elem) (lookup : NodeLookup)
    (_namespace_map : List (String × String)) : PM (List JVal × List JVal) :=
  if local_name elem.tag ≠ "choice" then pure ([], [])
  else branchesGo lookup elem.children

/-- The attribute loop of `build_attributes` (keys pass through
`qualified_name`; dictionary assignment may overwrite colliding keys). -/
def buildAttributesGo (namespace_map : List (String × String))
    (exclude_keys : List String) (acc : List (String × String)) :
    List (String × String) → Except String (List (String × String))
  | [] => .ok acc
  | (key, value) :: rest =>
      if key ∈ exclude_keys then
        buildAttributesGo namespace_map exclude_keys acc rest
      else do
        let q ← qualified_name key namespace_map
        buildAttributesGo namespace_map exclude_keys (dictInsert acc q value) rest

/-- Python `build_attributes(attributes, namespace_map, exclude_keys=...)`. -/
def build_attributes (attributes : List (String × String))
    (namespace_map : List (String × String)) (exclude_keys : List String) :
    Except String (List (String × String)) :=
  buildAttributesGo namespace_map exclude_keys [] attributes

/-- Line-boundary characters of Python `str.splitlines()`. -/
def isLineBreak (c : Char) : Bool :=
  c = Char.ofNat 10 || c = Char.ofNat 13 || c = Char.ofNat 11 ||
  c = Char.ofNat 12 || c = Char.ofNat 28 || c = Char.ofNat 29 ||
  c = Char.ofNat 30 || c = Char.ofNat 133 || c = Char.ofNat 8232 ||
  c = Char.ofNat 8233

/-- Python `str.split()` with no argument: split on whitespace runs,
discarding empty pieces. -/
def wsSplitGo : List Char → List Char → List String
  | [], cur => if cur = [] then [] else [String.mk cur.reverse]
  | c :: cs, cur =>
      if isPyWs c then
        if cur = [] then wsSplitGo cs []
        else String.mk cur.reverse :: wsSplitGo cs []
      else wsSplitGo cs (c :: cur)

/-- The descendant scan of `extract_dataweave`: collect non-empty script
bodies and the last `mimeType` attribute seen. -/
def dwScanGo : List Elem → List String → Option String →
    List String × Option String
  | [], scripts, mime => (scripts, mime)
  | node :: rest, scripts, mime =>
      if local_name node.tag = "set-payload" ∨ local_name node.tag = "set-variable" ∨
         local_name node.tag = "set-property" ∨ local_name node.tag = "script" then
        let payload_text := pyStrip (node.text.getD "")
        let scripts2 := if payload_text ≠ "" then scripts ++ [payload_text] else scripts
        let mime2 :=
          match dictGet node.attrib "mimeType" with
          | some m => some m
          | none => mime
        dwScanGo rest scripts2 mime2
      else dwScanGo rest scripts mime

/-- Python `extract_dataweave(elem, namespace_map)`: DataWeave detection and
fingerprinting. -/
def extract_dataweave (elem : Elem) (namespace_map : List (String × String)) :
    Except String (Option JVal) := do
  let qname ← qualified_name elem.tag namespace_map
  if ¬ pyStartsWith qname "ee:" ∧ local_name elem.tag ≠ "transform" ∧
     local_name elem.tag ≠ "transform-message" then
    pure none
  else
    let (scripts, mime_type) := dwScanGo elem.iterAll [] none
    if scripts = [] then pure none
    else
      let body := pyStrip (String.intercalate "\n\n" scripts)
      let header : Option String :=
        if body ≠ "" then
          some (pyStrip (String.mk (body.toList.takeWhile (fun c => ¬ isLineBreak c))))
        else none
      let version : Option String :=
        match header with
        | some h =>
            if h ≠ "" ∧ pyStartsWith h "%dw" then
              match wsSplitGo h.toList [] with
              | _ :: v :: _ => some v
              | _ => none
            else none
        | none => none
      let dw0 : List (String × JVal) := [("bodyHash", JVal.s (sha1Hex body))]
      let dw1 :=
        match version with
        | some v => if v ≠ "" then dw0 ++ [("version", JVal.s v)] else dw0
        | none => dw0
      let dw2 :=
        match mime_type with
        | some m => if m ≠ "" then dw1 ++ [("outputMime", JVal.s m)] else dw1
        | none => dw1
      let dw3 :=
        match header with
        | some h => if h ≠ "" then dw2 ++ [("header", JVal.s h)] else dw2
        | none => dw2
      pure (some (JVal.obj dw3))

/-- The processor dictionary assembled by `parse_processor` (its pure
part, split out for reasoning): `idx` and `type` always, then the
conditional `configRef`, `attributes`, `dw` and `branches` keys. -/
def processor_fields (idx : Nat) (ty : String) (elem : Elem)
    (attributes : List (String × String)) (dw_info : Option JVal)
    (branches : List JVal) : List (String × JVal) :=
  let p0 : List (String × JVal) := [("idx", JVal.i idx), ("type", JVal.s ty)]
  let p1 :=
    match dictGet elem.attrib "config-ref" with
    | some c => if c ≠ "" then p0 ++ [("configRef", JVal.s c)] else p0
    | none => p0
  let p2 :=
    if attributes ≠ [] then
      p1 ++ [("attributes", JVal.obj (attributes.map (fun kv => (kv.1, JVal.s kv.2))))]
    else p1
  let p3 :=
    match dw_info with
    | some dw => if jTruthy dw then p2 ++ [("dw", dw)] else p2
    | none => p2
  if branches ≠ [] then p3 ++ [("branches", JVal.arr branches)] else p3

/-- Python `parse_processor(idx, elem, lookup, namespace_map)`. -/
def parse_processor (idx : Nat) (elem : Elem) (lookup : NodeLookup)
    (namespace_map : List (String × String)) : PM ProcessorParseResult := do
  let ty ← liftE (qualified_name elem.tag namespace_map)
  let attributes ← liftE (build_attributes elem.attrib namespace_map ["config-ref"])
  let dw_info ← liftE (extract_dataweave elem namespace_map)
  let (branches, edges0) ← extract_branches elem lookup namespace_map
  let edges ←
    if local_name elem.tag = "flow-ref" then
      match dictGet elem.attrib "name" with
      | some n =>
          if n ≠ "" then do
            let target ← lookup.resolve n
            pure (edges0 ++
              [JVal.obj [("to", JVal.s target), ("via", JVal.s "flow-ref")]])
          else pure edges0
      | none => pure edges0
    else pure edges0
  pure ⟨JVal.obj (processor_fields idx ty elem attributes dw_info branches), edges⟩

/-- Python `extract_transaction(attributes)`.  `str.upper()` is modelled for
ASCII input, which is all this code base feeds it. -/
def extract_transaction (attributes : List (String × String)) : Option JVal :=
  let trans_type :=
    pyOr (dictGet attributes "transactionType") (dictGet attributes "transaction")
  let action := dictGet attributes "transactionAction"
  if ¬ truthy trans_type ∧ ¬ truthy action then none
  else
    let t0 : List (String × JVal) := []
    let t1 :=
      match trans_type with
      | some tt =>
          if tt ≠ "" then
            let normalized := tt.toUpper
            if normalized = "NONE" ∨ normalized = "LOCAL" ∨ normalized = "XA" then
              t0 ++ [("type", JVal.s normalized)]
            else t0
          else t0
      | none => t0
    let t2 :=
      match action with
      | some act =>
          if act ≠ "" then
            let na := act.toUpper
            if na = "ALWAYS_BEGIN" ∨ na = "BEGIN_OR_JOIN" ∨ na = "NONE" then
              t1 ++ [("action", JVal.s na)]
            else t1
          else t1
      | none => t1
    if t2 = [] then none else some (JVal.obj t2)

/-- Python `str.split(",")` followed by per-piece strip and the non-empty
filter of `parse_source`. -/
def splitCharGo (c : Char) : List Char → List Char → List (List Char)
  | [], cur => [cur.reverse]
  | x :: xs, cur =>
      if x = c then cur.reverse :: splitCharGo c xs []
      else splitCharGo c xs (x :: cur)

/-- The `optional_keys` loop of `parse_source`: copy `path`, `queue`, `cron`
and `responseTimeout`, integer-parsing the keys renamed to end in `Ms`.
The bare `int(value)` raises `ValueError` on non-numeric input. -/
def sourceKeysGo (first : Elem) : List String → List (String × JVal) →
    Except String (List (String × JVal))
  | [], source => .ok source
  | key :: rest, source =>
      match dictGet first.attrib key with
      | some value =>
          if value ≠ "" then
            let normalized := if key = "responseTimeout" then "responseTimeoutMs" else key
            if pyEndsWith normalized "Ms" then
              match pythonInt value with
              | some n => sourceKeysGo first rest (source ++ [(normalized, JVal.i n)])
              | none =>
                  .error ("ValueError: invalid literal for int() with base 10: \x27" ++
                    value ++ "\x27")
            else sourceKeysGo first rest (source ++ [(normalized, JVal.s value)])
          else sourceKeysGo first rest source
      | none => sourceKeysGo first rest source

/-- Python `parse_source(elem, namespace_map)`: the flow's first child as its
inbound source. -/
def parse_source (elem : Elem) (namespace_map : List (String × String)) :
    Except String (Option JVal) := do
  match elem.children with
  | [] => pure none
  | first :: _ => do
      let ty ← qualified_name first.tag namespace_map
      let s0 : List (String × JVal) := [("type", JVal.s ty)]
      let s1 :=
        match dictGet first.attrib "config-ref" with
        | some c => if c ≠ "" then s0 ++ [("configRef", JVal.s c)] else s0
        | none => s0
      let s2 ← sourceKeysGo first ["path", "queue", "cron", "responseTimeout"] s1
      let s3 :=
        match extract_transaction first.attrib with
        | some t => if jTruthy t then s2 ++ [("transaction", t)] else s2
        | none => s2
      let s4 :=
        match dictGet first.attrib "methods" with
        | some m =>
            if m ≠ "" then
              s3 ++ [("methods", JVal.arr
                ((((splitCharGo (Char.ofNat 44) m.toList []).map
                    (fun p => pyStrip (String.mk p))).filter
                  (fun piece => piece ≠ "")).map JVal.s))]
            else s3
        | none => s3
      let path_attr := pyOr (dictGet first.attrib "path") (dictGet first.attrib "destination")
      let s5 :=
        match path_attr with
        | some p =>
            if p ≠ "" ∧ dictGet s4 "path" = none then s4 ++ [("path", JVal.s p)]
            else s4
        | none => s4
      pure (some (JVal.obj s5))

/-- The `target` search of `parse_error_handler`: first `flow-ref` with a
truthy `name` in the flattened `child.iter()` sequence (the `break` sits
inside the `if name:` guard, so nameless `flow-ref`s are passed over). -/
def firstFlowRefTarget (lookup : NodeLookup) : List Elem → PM (Option String)
  | [] => pure none
  | candidate :: rest =>
      if local_name candidate.tag = "flow-ref" then
        match dictGet candidate.attrib "name" with
        | some n =>
            if n ≠ "" then do
              let t ← lookup.resolve n
              pure (some t)
            else firstFlowRefTarget lookup rest
        | none => firstFlowRefTarget lookup rest
      else firstFlowRefTarget lookup rest

/-- The entry dictionary assembled for one on-error child (pure part of
`parse_on_error_entry`): `type`, then the conditional `when`, `setsStatus`
and `target` keys. -/
def on_error_entry_fields (child : Elem) (tgt : Option String) :
    List (String × JVal) :=
  let entry0 : List (String × JVal) := [("type", JVal.s (local_name child.tag))]
  let entry1 :=
    match pyOr (dictGet child.attrib "when") (dictGet child.attrib "type") with
    | some w => if w ≠ "" then entry0 ++ [("when", JVal.s w)] else entry0
    | none => entry0
  let entry2 :=
    match dictGet child.attrib "statusCode" with
    | some st =>
        if st ≠ "" then
          match pythonInt st with
          | some n => entry1 ++ [("setsStatus", JVal.i n)]
          | none => entry1
        else entry1
    | none => entry1
  match tgt with
  | some t => entry2 ++ [("target", JVal.s t)]
  | none => entry2

/-- One `on-error-continue`/`on-error-propagate` entry of
`parse_error_handler`. -/
def parse_on_error_entry (child : Elem) (lookup : NodeLookup) : PM JVal := do
  let tgt ← firstFlowRefTarget lookup child.iterAll
  pure (JVal.obj (on_error_entry_fields child tgt))

/-- The recognized-children loop of `parse_error_handler`. -/
def onErrorEntriesGo (lookup : NodeLookup) : List Elem → PM (List JVal)
  | [] => pure []
  | child :: rest =>
      if local_name child.tag = "on-error-continue" ∨
         local_name child.tag = "on-error-propagate" then do
        let e ← parse_on_error_entry child lookup
        let es ← onErrorEntriesGo lookup rest
        pure (e :: es)
      else onErrorEntriesGo lookup rest

/-- Python `parse_error_handler(elem, lookup, namespace_map)`. -/
def parse_error_handler (elem : Elem) (lookup : NodeLookup)
    (_namespace_map : List (String × String)) : PM (Option JVal) := do
  let entries ← onErrorEntriesGo lookup elem.children
  if entries = [] then pure none
  else
    pure (some (JVal.obj
      [("onError", JVal.arr entries), ("default", JVal.s "none")]))

/-- Python `derive_flags`: the `hasBlockingDW` check for one processor. -/
def dwCheck (processor : JVal) (flags : List (String × JVal)) :
    List (String × JVal) :=
  match processor with
  | JVal.obj fields =>
      match dictGet fields "dw" with
      | some dw => if jTruthy dw then dictInsert flags "hasBlockingDW" (JVal.b true) else flags
      | none => flags
  | _ => flags

/-- The processor loop of `derive_flags`.  On a `ValueError` from `int()` the
Python `continue` also skips the DataWeave check for that processor. -/
def deriveFlagsGo : List JVal → List (String × JVal) → List (String × JVal)
  | [], flags => flags
  | processor :: rest, flags =>
      let attributes :=
        match processor with
        | JVal.obj fields =>
            match dictGet fields "attributes" with
            | some (JVal.obj attrs) => attrs
            | _ => []
        | _ => []
      match dictGet attributes "maxConcurrency" with
      | some (JVal.s v) =>
          (match pythonInt v with
           | some value =>
               let flags2 :=
                 if value > 0 then dictInsert flags "parallelism" (JVal.i value)
                 else flags
               deriveFlagsGo rest (dwCheck processor flags2)
           | none => deriveFlagsGo rest flags)
      | _ => deriveFlagsGo rest (dwCheck processor flags)

/-- Python `derive_flags(processors)`. -/
def derive_flags (processors : List JVal) : Option JVal :=
  let flags := deriveFlagsGo processors []
  if flags = [] then none else some (JVal.obj flags)

/-- Python `infer_location(elem)`.  `xml.etree` elements carry no
`sourceline` attribute, so `getattr(elem, "sourceline", None)` is always
`None` and only the name fallback remains. -/
def infer_location (elem : Elem) : String :=
  match dictGet elem.attrib "name" with
  | some n => if n ≠ "" then "flow:" ++ n else "unknown"
  | none => "unknown"

/-- The enumerated processor loop shared by `parse_flow` and
`parse_subflow`: parse each non-error-handler child at its index, collecting
processors and (for flows) edges. -/
def processorsGo (lookup : NodeLookup) (namespace_map : List (String × String)) :
    Nat → List Elem → PM (List JVal × List JVal)
  | _, [] => pure ([], [])
  | idx, child :: rest => do
      let result ← parse_processor idx child lookup namespace_map
      let (ps, es) ← processorsGo lookup namespace_map (idx + 1) rest
      pure (result.processor :: ps, result.edges ++ es)

/-- The flow dictionary assembled by `parse_flow` (pure part): `id`,
`name`, `processors`, `edges`, `location`, then the conditional `source`,
`errorHandler` and `flags` keys. -/
def flow_fields (elem : Elem) (lookup : NodeLookup)
    (processors edges : List JVal) (source error_handler : Option JVal) :
    List (String × JVal) :=
  let name := (dictGet elem.attrib "name").getD ""
  let flow_id := (dictGet lookup.flows name).getD ("flow://" ++ name)
  let f0 : List (String × JVal) :=
    [("id", JVal.s flow_id), ("name", JVal.s name),
     ("processors", JVal.arr processors), ("edges", JVal.arr edges),
     ("location", JVal.s (infer_location elem))]
  let f1 :=
    match source with
    | some src => if jTruthy src then f0 ++ [("source", src)] else f0
    | none => f0
  let f2 :=
    match error_handler with
    | some eh => if jTruthy eh then f1 ++ [("errorHandler", eh)] else f1
    | none => f1
  match derive_flags processors with
  | some fl => if jTruthy fl then f2 ++ [("flags", fl)] else f2
  | none => f2

/-- The error-handler selection loop shared by `parse_flow` and
`parse_subflow`: the first direct child whose local name is `error-handler`
is parsed, any later ones are ignored (the Python loop breaks after the
first hit). -/
def error_handler_step (elem : Elem) (lookup : NodeLookup)
    (namespace_map : List (String × String)) : PM (Option JVal) :=
  match elem.children.find? (fun c => local_name c.tag = "error-handler") with
  | some eh => parse_error_handler eh lookup namespace_map
  | none => pure none

/-- Python `parse_flow(elem, lookup, namespace_map)`. -/
def parse_flow (elem : Elem) (lookup : NodeLookup)
    (namespace_map : List (String × String)) : PM JVal := do
  let (processors, edges) ← processorsGo lookup namespace_map 0
    (elem.children.filter (fun c => local_name c.tag ≠ "error-handler"))
  let error_handler ← error_handler_step elem lookup namespace_map
  let source ← liftE (parse_source elem namespace_map)
  pure (JVal.obj (flow_fields elem lookup processors edges source error_handler))

/-- The subflow dictionary assembled by `parse_subflow` (pure part). -/
def subflow_fields (elem : Elem) (lookup : NodeLookup)
    (processors : List JVal) (error_handler : Option JVal) :
    List (String × JVal) :=
  let name := (dictGet elem.attrib "name").getD ""
  let subflow_id := (dictGet lookup.subflows name).getD ("subflow://" ++ name)
  let s0 : List (String × JVal) :=
    [("id", JVal.s subflow_id), ("name", JVal.s name),
     ("processors", JVal.arr processors),
     ("location", JVal.s (infer_location elem))]
  match error_handler with
  | some eh => if jTruthy eh then s0 ++ [("errorHandler", eh)] else s0
  | none => s0

/-- Python `parse_subflow(elem, lookup, namespace_map)`: processors only, the
per-processor edges are discarded. -/
def parse_subflow (elem : Elem) (lookup : NodeLookup)
    (namespace_map : List (String × String)) : PM JVal := do
  let (processors, _) ← processorsGo lookup namespace_map 0
    (elem.children.filter (fun c => local_name c.tag ≠ "error-handler"))
  let error_handler ← error_handler_step elem lookup namespace_map
  pure (JVal.obj (subflow_fields elem lookup processors error_handler))

/-- The flow/subflow identifier dictionary comprehensions of
`parse_mule_xml` (elements with a falsy `name` are skipped; duplicate names
overwrite). -/
def buildIdDict (idPrefix : String) (elems : List Elem) :
    List (String × String) :=
  elems.foldl
    (fun d e =>
      match dictGet e.attrib "name" with
      | some n => if n ≠ "" then dictInsert d n (idPrefix ++ n) else d
      | none => d)
    []

/-- Monadic map used for the flow and subflow list comprehensions. -/
def mapPM (f : Elem → PM JVal) : List Elem → PM (List JVal)
  | [] => pure []
  | e :: rest => do
      let v ← f e
      let vs ← mapPM f rest
      pure (v :: vs)

/-- The document dictionary assembled by `parse_mule_xml` (pure part):
fixed keys plus the conditional `assumptions` key. -/
def document_fields (project schema_version generatedAt : String)
    (flows subflows : List JVal) (assumptions : List String) :
    List (String × JVal) :=
  let d0 : List (String × JVal) :=
    [("schemaVersion", JVal.s schema_version), ("project", JVal.s project),
     ("generatedAt", JVal.s generatedAt), ("flows", JVal.arr flows),
     ("subflows", JVal.arr subflows), ("links", JVal.arr [])]
  if assumptions ≠ [] then
    d0 ++ [("assumptions", JVal.arr (assumptions.map JVal.s))]
  else d0

/-- The top-level `flow` elements of the document root. -/
def flow_elements (root : Elem) : List Elem :=
  root.children.filter (fun e => local_name e.tag = "flow")

/-- The top-level `sub-flow`/`subflow` elements of the document root. -/
def subflow_elements (root : Elem) : List Elem :=
  root.children.filter
    (fun e => local_name e.tag = "sub-flow" ∨ local_name e.tag = "subflow")

/-- The `NodeLookup` that `parse_mule_xml` builds before the main walk. -/
def node_lookup (root : Elem) : NodeLookup :=
  ⟨buildIdDict "flow://" (flow_elements root),
   buildIdDict "subflow://" (subflow_elements root)⟩

/-- Python `parse_mule_xml(xml_content, project, schema_version=...)`.
The already-parsed root element and the namespace map built by
`collect_namespaces` are the inputs of the embedding; `generatedAt` is the
ambient `datetime.now(timezone.utc).isoformat()` clock reading, passed as a
parameter. -/
def parse_mule_xml (root : Elem) (namespace_map : List (String × String))
    (project : String) (schema_version : String) (generatedAt : String) :
    Except String JVal :=
  let walk : PM (List JVal × List JVal) := do
    let flows ← mapPM
      (fun e => parse_flow e (node_lookup root) namespace_map)
      (flow_elements root)
    let subflows ← mapPM
      (fun e => parse_subflow e (node_lookup root) namespace_map)
      (subflow_elements root)
    pure (flows, subflows)
  match walk [] with
  | .error e => .error e
  | .ok ((flows, subflows), assumptions) =>
      .ok (JVal.obj
        (document_fields project schema_version generatedAt flows subflows
          assumptions))

/-! Concrete input trees, mirroring the repository's own test fixtures
(`tests/test_parser_basic.py`): the element trees and namespace maps that
`ET.fromstring` and `collect_namespaces` produce from `SAMPLE_XML` and
`ROUTER_XML`. -/

/-- Element without text content. -/
def el (tag : String) (attrib : List (String × String))
    (children : List Elem) : Elem :=
  .mk tag attrib none children

def nsCoreURI : String := "http://www.mulesoft.org/schema/mule/core"

def nsDocURI : String := "http://www.mulesoft.org/schema/mule/documentation"

def nsHttpURI : String := "http://www.mulesoft.org/schema/mule/http"

def nsEeURI : String := "http://www.mulesoft.org/schema/mule/ee/core"

def nsXsiURI : String := "http://www.w3.org/2001/XMLSchema-instance"

/-- A tag in the default (core) namespace as decorated by `ElementTree`. -/
def coreTag (localPart : String) : String :=
  "\x7b" ++ nsCoreURI ++ "\x7d" ++ localPart

/-- The decorated `doc:name` attribute key. -/
def docName : String := "\x7b" ++ nsDocURI ++ "\x7dname"

/-- Namespace map of `ROUTER_XML` (URI to first-seen prefix, document
order). -/
def routerNs : List (String × String) :=
  [(nsCoreURI, ""), (nsXsiURI, "xsi"), (nsDocURI, "doc")]

/-- The `routerFlow` element of `ROUTER_XML`. -/
def routerFlowElem : Elem :=
  el (coreTag "flow") [("name", "routerFlow")]
    [el (coreTag "choice") [(docName, "Choice")]
      [el (coreTag "when") [("expression", "#[vars.flag]")]
        [el (coreTag "flow-ref") [("name", "flagged"), (docName, "Flagged")] []],
       el (coreTag "otherwise") []
        [el (coreTag "flow-ref") [("name", "fallback"), (docName, "Fallback")] []]],
     el (coreTag "scatter-gather") [(docName, "Scatter")]
      [el (coreTag "route") []
        [el (coreTag "flow-ref") [("name", "routeOne"), (docName, "Route1")] []],
       el (coreTag "route") []
        [el (coreTag "flow-ref") [("name", "routeTwo"), (docName, "Route2")] []]],
     el (coreTag "first-successful") [(docName, "First")]
      [el (coreTag "route") []
        [el (coreTag "flow-ref") [("name", "firstOption"), (docName, "First option")] []]],
     el (coreTag "foreach") [(docName, "Loop")]
      [el (coreTag "flow-ref") [("name", "loopSub"), (docName, "Loop sub")] []]]

/-- The root element of `ROUTER_XML`. -/
def routerRoot : Elem :=
  el (coreTag "mule") []
    (routerFlowElem ::
      ["flagged", "fallback", "routeOne", "routeTwo", "firstOption",
       "loopSub"].map (fun n => el (coreTag "sub-flow") [("name", n)] []))

/-- Namespace map of `SAMPLE_XML`. -/
def sampleNs : List (String × String) :=
  [(nsCoreURI, ""), (nsXsiURI, "xsi"), (nsHttpURI, "http"), (nsEeURI, "ee"),
   (nsDocURI, "doc")]

/-- The DataWeave script body of `SAMPLE_XML` (CDATA content of
`ee:set-payload`). -/
def sampleDwText : String :=
  "%dw 2.0\noutput application/json\n---\n\x7b\n  message: \"hello\"\n\x7d\n"

/-- The root element of `SAMPLE_XML`. -/
def sampleRoot : Elem :=
  el (coreTag "mule") []
    [el (coreTag "flow") [("name", "mainFlow")]
      [el ("\x7b" ++ nsHttpURI ++ "\x7dlistener")
        [("config-ref", "httpListenerConfig"), ("path", "/api"),
         ("methods", "GET"), (docName, "HTTP Listener")] [],
       el ("\x7b" ++ nsEeURI ++ "\x7dtransform") [(docName, "Transform")]
        [el ("\x7b" ++ nsEeURI ++ "\x7dmessage") []
          [Elem.mk ("\x7b" ++ nsEeURI ++ "\x7dset-payload") []
            (some sampleDwText) []]],
       el (coreTag "flow-ref") [("name", "helperSubflow"), (docName, "Call subflow")] [],
       el (coreTag "error-handler") []
        [el (coreTag "on-error-propagate")
          [("when", "error.description == \x27boom\x27"), ("statusCode", "500")]
          [el (coreTag "flow-ref")
            [("name", "helperSubflow"), (docName, "Error handler call")] [],
           el (coreTag "set-payload") [("value", "Error")] []]]],
     el (coreTag "sub-flow") [("name", "helperSubflow")]
      [el (coreTag "logger")
        [("level", "INFO"), ("message", "Helper"), (docName, "Logger")] []]]

/-! Statement-side accessors and characterizations, used to phrase the
claims; these are not part of the embedded program. -/

/-- Field lookup on a JSON object value. -/
def docField (doc : JVal) (k : String) : Option JVal :=
  match doc with
  | .obj fields => dictGet fields k
  | _ => none

/-- The first element of the document's `flows` array. -/
def firstFlow (doc : JVal) : JVal :=
  match docField doc "flows" with
  | some (.arr (f :: _)) => f
  | _ => .null

/-- The `edges` array of a flow object. -/
def flowEdges (flow : JVal) : List JVal :=
  match docField flow "edges" with
  | some (.arr es) => es
  | _ => []

/-- How many edges of the flow carry the given `via` tag. -/
def countVia (flow : JVal) (via : String) : Nat :=
  ((flowEdges flow).filter (fun e => docField e "via" = some (JVal.s via))).length

/-- The `processors` array of a flow or subflow object. -/
def flowProcessors (flow : JVal) : List JVal :=
  match docField flow "processors" with
  | some (.arr ps) => ps
  | _ => []

/-- The value `NodeLookup.resolve(name)` returns: a pure function of the
lookup tables and the name (proved as `resolve_run`). -/
def resolveId (lookup : NodeLookup) (name : String) : String :=
  match dictGet lookup.flows name with
  | some v => v
  | none =>
      match dictGet lookup.subflows name with
      | some v => v
      | none => "flow://" ++ name

/-- The assumptions `NodeLookup.resolve(name)` appends (empty on a hit,
one note on a miss). -/
def resolveNotes (lookup : NodeLookup) (name : String) : List String :=
  match dictGet lookup.flows name with
  | some _ => []
  | none =>
      match dictGet lookup.subflows name with
      | some _ => []
      | none => ["Reference to unknown flow or subflow \x27" ++ name ++ "\x27"]

/-! Basic lemmas about the monad and the dictionary model. -/

theorem pm_pure_apply {α : Type} (a : α) (st : List String) :
    (pure a : PM α) st = .ok (a, st) := rfl

theorem pm_bind_apply {α β : Type} (m : PM α) (k : α → PM β) (st : List String) :
    (m >>= k) st =
      match m st with
      | .ok (a, st') => k a st'
      | .error msg => .error msg := rfl

theorem liftE_apply {α : Type} (e : Except String α) (st : List String) :
    liftE e st =
      match e with
      | .ok a => .ok (a, st)
      | .error m => .error m := rfl

theorem dictGet_nil {β : Type} (k : String) :
    dictGet ([] : List (String × β)) k = none := rfl

theorem dictGet_cons {β : Type} (k : String) (v : β) (fs : List (String × β))
    (k' : String) :
    dictGet ((k, v) :: fs) k' = if k = k' then some v else dictGet fs k' := by
  by_cases h : k = k' <;> simp [dictGet, List.find?, h]

theorem dictGet_append {β : Type} (l r : List (String × β)) (k : String) :
    dictGet (l ++ r) k = (dictGet l k).or (dictGet r k) := by
  induction l with
  | nil => simp [dictGet]
  | cons p l ih =>
      obtain ⟨a, b⟩ := p
      by_cases h : a = k <;> simp [dictGet_cons, h, ih]

theorem dictGet_append_left {β : Type} {l : List (String × β)} {k : String}
    {v : β} (r : List (String × β)) (h : dictGet l k = some v) :
    dictGet (l ++ r) k = some v := by
  simp [dictGet_append, h]

theorem dictGet_append_right {β : Type} {l : List (String × β)} {k : String}
    (r : List (String × β)) (h : dictGet l k = none) :
    dictGet (l ++ r) k = dictGet r k := by
  simp [dictGet_append, h]

theorem dictGet_none_of_any_eq_false {β : Type} {d : List (String × β)}
    {k : String} (h : d.any (fun p => p.1 = k) = false) :
    dictGet d k = none := by
  induction d with
  | nil => rfl
  | cons p d ih =>
      obtain ⟨a, b⟩ := p
      simp only [List.any_cons, Bool.or_eq_false_iff] at h
      have ha : a ≠ k := by simpa using h.1
      simp [dictGet_cons, ha, ih h.2]

theorem dictGet_map_subst_ne {β : Type} (d : List (String × β)) (k : String)
    (v : β) (k' : String) (h : k ≠ k') :
    dictGet (d.map (fun p => if p.1 = k then (k, v) else p)) k' = dictGet d k' := by
  induction d with
  | nil => rfl
  | cons p d ih =>
      obtain ⟨a, b⟩ := p
      by_cases hak : a = k
      · subst hak
        simp [dictGet_cons, h, ih]
      · by_cases hck : a = k' <;> simp [dictGet_cons, hak, hck, ih, Ne.symm h]

theorem dictGet_map_subst_self {β : Type} (d : List (String × β)) (k : String)
    (v : β) (h : d.any (fun p => p.1 = k) = true) :
    dictGet (d.map (fun p => if p.1 = k then (k, v) else p)) k = some v := by
  induction d with
  | nil => simp at h
  | cons p d ih =>
      obtain ⟨a, b⟩ := p
      by_cases hak : a = k
      · subst hak
        simp [dictGet_cons]
      · have h' : d.any (fun p => p.1 = k) = true := by
          simpa [hak] using h
        simp [dictGet_cons, hak, ih h']

theorem dictGet_dictInsert {β : Type} (d : List (String × β)) (k : String)
    (v : β) (k' : String) :
    dictGet (dictInsert d k v) k' = if k = k' then some v else dictGet d k' := by
  unfold dictInsert
  by_cases hany : d.any (fun p => p.1 = k) = true
  · simp only [hany, if_true]
    by_cases hkk : k = k'
    · subst hkk
      rw [dictGet_map_subst_self d k v hany, if_pos rfl]
    · rw [dictGet_map_subst_ne d k v k' hkk, if_neg hkk]
  · simp only [Bool.not_eq_true] at hany
    have hnone : dictGet d k = none := dictGet_none_of_any_eq_false hany
    simp only [hany, Bool.false_eq_true, if_false]
    rw [dictGet_append]
    by_cases hkk : k = k'
    · subst hkk
      simp [hnone, dictGet_cons]
    · rw [dictGet_cons, if_neg hkk, dictGet_nil, if_neg hkk, Option.or_none]

theorem resolve_run (lookup : NodeLookup) (name : String) (st : List String) :
    lookup.resolve name st =
      .ok (resolveId lookup name, st ++ resolveNotes lookup name) := by
  unfold NodeLookup.resolve resolveId resolveNotes
  cases h1 : dictGet lookup.flows name with
  | some v => simp
  | none =>
      cases h2 : dictGet lookup.subflows name with
      | some v => simp
      | none => simp

/-! Shared run lemmas for the stateful helper functions. -/

theorem except_bind_ok {α β : Type} (a : α) (k : α → Except String β) :
    (Except.ok a >>= k) = k a := rfl

theorem except_bind_error {α β : Type} (e : String) (k : α → Except String β) :
    ((Except.error e : Except String α) >>= k) = .error e := rfl

theorem except_map_ok {α β : Type} (f : α → β) (a : α) :
    (f <$> (Except.ok a : Except String α)) = .ok (f a) := rfl

theorem except_map_error {α β : Type} (f : α → β) (e : String) :
    (f <$> (Except.error e : Except String α)) = .error e := rfl

theorem firstFlowRefTarget_total (lookup : NodeLookup) :
    ∀ (l : List Elem) (st : List String),
      ∃ r st', firstFlowRefTarget lookup l st = .ok (r, st') := by
  intro l
  induction l with
  | nil => intro st; exact ⟨none, st, rfl⟩
  | cons candidate rest ih =>
      intro st
      by_cases h1 : local_name candidate.tag = "flow-ref"
      · cases hn : dictGet candidate.attrib "name" with
        | some n =>
            by_cases hne : n = ""
            · simpa [firstFlowRefTarget, h1, hn, hne] using ih st
            · refine ⟨some (resolveId lookup n), st ++ resolveNotes lookup n, ?_⟩
              simp [firstFlowRefTarget, h1, hn, hne, pm_bind_apply,
                resolve_run, pm_pure_apply]
        | none => simpa [firstFlowRefTarget, h1, hn] using ih st
      · simpa [firstFlowRefTarget, h1] using ih st

theorem parse_on_error_entry_run (child : Elem) (lookup : NodeLookup)
    (st : List String) :
    ∃ tgt st', parse_on_error_entry child lookup st =
      .ok (JVal.obj (on_error_entry_fields child tgt), st') := by
  obtain ⟨r, st', h⟩ := firstFlowRefTarget_total lookup child.iterAll st
  exact ⟨r, st', by simp [parse_on_error_entry, pm_bind_apply, h, pm_pure_apply]⟩

theorem branchTargetsGo_total (lookup : NodeLookup) :
    ∀ (l : List Elem) (st : List String),
      ∃ ts st', branchTargetsGo lookup l st = .ok (ts, st') := by
  intro l
  induction l with
  | nil => intro st; exact ⟨[], st, rfl⟩
  | cons candidate rest ih =>
      intro st
      by_cases h1 : local_name candidate.tag = "flow-ref"
      · cases hn : dictGet candidate.attrib "name" with
        | some n =>
            by_cases hne : n = ""
            · simpa [branchTargetsGo, h1, hn, hne] using ih st
            · obtain ⟨ts, st', hrest⟩ := ih (st ++ resolveNotes lookup n)
              refine ⟨resolveId lookup n :: ts, st', ?_⟩
              simp [branchTargetsGo, h1, hn, hne, pm_bind_apply, resolve_run,
                hrest, pm_pure_apply]
        | none => simpa [branchTargetsGo, h1, hn] using ih st
      · simpa [branchTargetsGo, h1] using ih st

theorem collect_branch_targets_total (elem : Elem) (lookup : NodeLookup)
    (st : List String) :
    ∃ ts st', collect_branch_targets elem lookup st = .ok (ts, st') :=
  branchTargetsGo_total lookup elem.iterAll st

/-- The branch descriptor `extract_branches` builds for a `when` child. -/
def whenBranchOf (w : Elem) (targets : List String) : JVal :=
  JVal.obj
    [("when", optStr (pyOr (dictGet w.attrib "expression")
        (dictGet w.attrib "condition"))),
     ("targets", JVal.arr (targets.map JVal.s))]

/-- The branch descriptor `extract_branches` builds for an `otherwise`
child. -/
def otherwiseBranchOf (targets : List String) : JVal :=
  JVal.obj [("otherwise", JVal.b true), ("targets", JVal.arr (targets.map JVal.s))]

theorem branchesGo_total (lookup : NodeLookup) :
    ∀ (l : List Elem) (st : List String),
      ∃ bs es st', branchesGo lookup l st = .ok ((bs, es), st') := by
  intro l
  induction l with
  | nil => intro st; exact ⟨[], [], st, rfl⟩
  | cons child rest ih =>
      intro st
      by_cases hw : local_name child.tag = "when"
      · obtain ⟨ts, st1, hts⟩ := collect_branch_targets_total child lookup st
        obtain ⟨bs, es, st', hrest⟩ := ih st1
        refine ⟨whenBranchOf child ts :: bs, ts.map (fun t =>
          JVal.obj [("to", JVal.s t), ("via", JVal.s "choice.when")]) ++ es,
          st', ?_⟩
        simp [branchesGo, hw, pm_bind_apply, hts, hrest, pm_pure_apply,
          whenBranchOf]
      · by_cases ho : local_name child.tag = "otherwise"
        · obtain ⟨ts, st1, hts⟩ := collect_branch_targets_total child lookup st
          obtain ⟨bs, es, st', hrest⟩ := ih st1
          refine ⟨otherwiseBranchOf ts :: bs, ts.map (fun t =>
            JVal.obj [("to", JVal.s t), ("via", JVal.s "choice.otherwise")]) ++ es,
            st', ?_⟩
          simp [branchesGo, hw, ho, pm_bind_apply, hts, hrest, pm_pure_apply,
            otherwiseBranchOf]
        · simpa [branchesGo, hw, ho] using ih st

theorem branchesGo_when_mem (lookup : NodeLookup) :
    ∀ (l : List Elem) (st : List String) (w : Elem), w ∈ l →
      local_name w.tag = "when" →
      ∀ bs es st', branchesGo lookup l st = .ok ((bs, es), st') →
        ∃ targets, whenBranchOf w targets ∈ bs := by
  intro l
  induction l with
  | nil => intro st w hw; simp at hw
  | cons child rest ih =>
      intro st w hwmem hlw bs es st' hrun
      rcases List.mem_cons.mp hwmem with heq | htail
      · subst heq
        obtain ⟨ts, st1, hts⟩ := collect_branch_targets_total w lookup st
        obtain ⟨bs2, es2, st2, hrest⟩ := branchesGo_total lookup rest st1
        have hthis : branchesGo lookup (w :: rest) st =
            .ok ((whenBranchOf w ts :: bs2,
              ts.map (fun t => JVal.obj [("to", JVal.s t),
                ("via", JVal.s "choice.when")]) ++ es2), st2) := by
          simp [branchesGo, hlw, pm_bind_apply, hts, hrest, pm_pure_apply,
            whenBranchOf]
        rw [hthis] at hrun
        simp only [Except.ok.injEq, Prod.mk.injEq] at hrun
        obtain ⟨⟨hbs, _⟩, _⟩ := hrun
        exact ⟨ts, by rw [← hbs]; exact List.mem_cons_self _ _⟩
      · by_cases hcw : local_name child.tag = "when"
        · obtain ⟨ts, st1, hts⟩ := collect_branch_targets_total child lookup st
          obtain ⟨bs2, es2, st2, hrest⟩ := branchesGo_total lookup rest st1
          have hrun2 : branchesGo lookup (child :: rest) st =
              .ok ((whenBranchOf child ts :: bs2,
                ts.map (fun t => JVal.obj [("to", JVal.s t),
                  ("via", JVal.s "choice.when")]) ++ es2), st2) := by
            simp [branchesGo, hcw, pm_bind_apply, hts, hrest, pm_pure_apply,
              whenBranchOf]
          rw [hrun2] at hrun
          simp only [Except.ok.injEq, Prod.mk.injEq] at hrun
          obtain ⟨⟨hbs, _⟩, _⟩ := hrun
          obtain ⟨targets, hmem⟩ := ih st1 w htail hlw bs2 es2 st2 hrest
          exact ⟨targets, by rw [← hbs]; exact List.mem_cons_of_mem _ hmem⟩
        · by_cases hco : local_name child.tag = "otherwise"
          · obtain ⟨ts, st1, hts⟩ := collect_branch_targets_total child lookup st
            obtain ⟨bs2, es2, st2, hrest⟩ := branchesGo_total lookup rest st1
            have hrun2 : branchesGo lookup (child :: rest) st =
                .ok ((otherwiseBranchOf ts :: bs2,
                  ts.map (fun t => JVal.obj [("to", JVal.s t),
                    ("via", JVal.s "choice.otherwise")]) ++ es2), st2) := by
              simp [branchesGo, hcw, hco, pm_bind_apply, hts, hrest,
                pm_pure_apply, otherwiseBranchOf]
            rw [hrun2] at hrun
            simp only [Except.ok.injEq, Prod.mk.injEq] at hrun
            obtain ⟨⟨hbs, _⟩, _⟩ := hrun
            obtain ⟨targets, hmem⟩ := ih st1 w htail hlw bs2 es2 st2 hrest
            exact ⟨targets, by rw [← hbs]; exact List.mem_cons_of_mem _ hmem⟩
          · have hstep : branchesGo lookup (child :: rest) st =
                branchesGo lookup rest st := by
              simp [branchesGo, hcw, hco]
            rw [hstep] at hrun
            exact ih st w htail hlw bs es st' hrun

/-! Claim C2. -/

/-- Input whose first child carries a non-numeric `responseTimeout`. -/
def c2BadTimeoutFlow : Elem :=
  el (coreTag "flow") [("name", "badFlow")]
    [el (coreTag "listener") [("responseTimeout", "abc")] []]

/-- C2 counterexample: the claim says non-numeric integer-valued fields are
always silently dropped.  For `responseTimeout` the code calls `int(value)`
with no `try` (parser.py:332), so `parse_source` — and with it the whole
`parse_mule_xml` run — raises `ValueError` instead of dropping the field. -/
theorem c2_counterexample :
    parse_source c2BadTimeoutFlow routerNs =
      .error "ValueError: invalid literal for int() with base 10: \x27abc\x27" ∧
    parse_mule_xml (el (coreTag "mule") [] [c2BadTimeoutFlow]) routerNs "P"
        "1.0.0" "T0" =
      .error "ValueError: invalid literal for int() with base 10: \x27abc\x27" :=
  ⟨rfl, rfl⟩

theorem on_error_entry_fields_setsStatus_none (child : Elem)
    (tgt : Option String) (sc : String)
    (hsc : dictGet child.attrib "statusCode" = some sc)
    (hbad : pythonInt sc = none) :
    dictGet (on_error_entry_fields child tgt) "setsStatus" = none := by
  unfold on_error_entry_fields
  simp only [hsc, hbad]
  rcases tgt with _ | t <;>
    rcases pyOr (dictGet child.attrib "when") (dictGet child.attrib "type")
      with _ | w <;>
    by_cases hw : sc = "" <;>
    simp [hw, dictGet_cons, dictGet_append, dictGet_nil] <;>
    split_ifs <;>
    simp [dictGet_cons, dictGet_append, dictGet_nil]

theorem sourceKeysGo_step_total (first : Elem) (key : String)
    (hk : pyEndsWith (if key = "responseTimeout" then "responseTimeoutMs" else key)
      "Ms" = false) :
    ∀ (rest : List String) (s : List (String × JVal)),
      ∃ s', sourceKeysGo first (key :: rest) s = sourceKeysGo first rest s' := by
  intro rest s
  cases hv : dictGet first.attrib key with
  | none => exact ⟨s, by simp [sourceKeysGo, hv]⟩
  | some value =>
      by_cases hne : value = ""
      · exact ⟨s, by simp [sourceKeysGo, hv, hne]⟩
      · refine ⟨s ++ [((if key = "responseTimeout" then "responseTimeoutMs" else key),
          JVal.s value)], ?_⟩
        simp [sourceKeysGo, hv, hne, hk]

theorem sourceKeysGo_timeout_error (first : Elem) (s : List (String × JVal))
    (v : String) (hv : dictGet first.attrib "responseTimeout" = some v)
    (hne : v ≠ "") (hbad : pythonInt v = none) :
    ∃ msg, sourceKeysGo first ["path", "queue", "cron", "responseTimeout"] s =
      .error msg := by
  obtain ⟨s1, h1⟩ := sourceKeysGo_step_total first "path" (by rfl)
    ["queue", "cron", "responseTimeout"] s
  obtain ⟨s2, h2⟩ := sourceKeysGo_step_total first "queue" (by rfl)
    ["cron", "responseTimeout"] s1
  obtain ⟨s3, h3⟩ := sourceKeysGo_step_total first "cron" (by rfl)
    ["responseTimeout"] s2
  refine ⟨"ValueError: invalid literal for int() with base 10: \x27" ++ v ++
    "\x27", ?_⟩
  rw [h1, h2, h3]
  simp [sourceKeysGo, hv, hne, hbad,
    show pyEndsWith "responseTimeoutMs" "Ms" = true from rfl]

theorem parse_source_timeout_raises (flowElem : Elem)
    (ns : List (String × String)) (first : Elem) (rest : List Elem) (v : String)
    (hch : flowElem.children = first :: rest)
    (hv : dictGet first.attrib "responseTimeout" = some v)
    (hne : v ≠ "") (hbad : pythonInt v = none) :
    ∃ msg, parse_source flowElem ns = .error msg := by
  cases hq : qualified_name first.tag ns with
  | error e =>
      exact ⟨e, by simp [parse_source, hch, hq, except_bind_error]⟩
  | ok ty =>
      obtain ⟨msg, hmsg⟩ := sourceKeysGo_timeout_error first
        (match dictGet first.attrib "config-ref" with
         | some c => if c = "" then [("type", JVal.s ty)]
             else [("type", JVal.s ty), ("configRef", JVal.s c)]
         | none => [("type", JVal.s ty)]) v hv hne hbad
      exact ⟨msg, by
        simp [parse_source, hch, hq, except_bind_ok, hmsg, except_map_error]⟩

/-- C2 amended: a non-numeric `statusCode` on an on-error entry is silently
dropped (the entry simply lacks `setsStatus` and the parse continues), but a
non-numeric `responseTimeout` on a flow\x27s first child is NOT dropped: the
bare `int(value)` call raises `ValueError` and aborts the parse. -/
theorem c2_numeric_parse_handling (child : Elem) (lookup : NodeLookup)
    (st : List String) (sc : String) (flowElem : Elem)
    (ns : List (String × String)) (first : Elem) (rest : List Elem)
    (v : String) :
    (dictGet child.attrib "statusCode" = some sc → pythonInt sc = none →
      ∃ tgt st', parse_on_error_entry child lookup st =
          .ok (JVal.obj (on_error_entry_fields child tgt), st') ∧
        dictGet (on_error_entry_fields child tgt) "setsStatus" = none) ∧
    (flowElem.children = first :: rest →
      dictGet first.attrib "responseTimeout" = some v → v ≠ "" →
      pythonInt v = none →
      ∃ msg, parse_source flowElem ns = .error msg) := by
  constructor
  · intro hsc hbad
    obtain ⟨tgt, st', h⟩ := parse_on_error_entry_run child lookup st
    exact ⟨tgt, st', h,
      on_error_entry_fields_setsStatus_none child tgt sc hsc hbad⟩
  · intro hch hv hne hbad
    exact parse_source_timeout_raises flowElem ns first rest v hch hv hne hbad

/-- An on-error child with a non-numeric `statusCode`, for the C2 witness. -/
def c2StatusChild : Elem :=
  el (coreTag "on-error-continue") [("statusCode", "oops")] []

/-- C2 amended, witness at concrete inputs. -/
theorem c2_numeric_parse_handling_witness :
    (∃ tgt st', parse_on_error_entry c2StatusChild ⟨[], []⟩ [] =
        .ok (JVal.obj (on_error_entry_fields c2StatusChild tgt), st') ∧
      dictGet (on_error_entry_fields c2StatusChild tgt) "setsStatus" = none) ∧
    (∃ msg, parse_source c2BadTimeoutFlow routerNs = .error msg) := by
  have h := c2_numeric_parse_handling c2StatusChild ⟨[], []⟩ [] "oops"
    c2BadTimeoutFlow routerNs
    (el (coreTag "listener") [("responseTimeout", "abc")] []) [] "abc"
  exact ⟨h.1 (by rfl) (by rfl), h.2 (by rfl) (by rfl) (by decide) (by rfl)⟩

/-! Claim C3. -/

/-- A `when` element with neither an `expression` nor a `condition`
attribute. -/
def c3WhenElem : Elem :=
  el (coreTag "when") [] [el (coreTag "flow-ref") [("name", "t1")] []]

/-- A `choice` element holding only `c3WhenElem`. -/
def c3ChoiceElem : Elem := el (coreTag "choice") [] [c3WhenElem]

/-- A document whose single flow holds `c3ChoiceElem`. -/
def c3Root : Elem :=
  el (coreTag "mule") []
    [el (coreTag "flow") [("name", "choiceFlow")] [c3ChoiceElem]]

/-- C3 counterexample: the claim says no produced Document ever carries a
null-valued field.  Parsing `c3Root` yields a flow whose choice processor
has a branch descriptor `\x7b"when": null, "targets": [...]\x7d`: the code
stores `\x7b"when": condition\x7d` unconditionally (parser.py:222), and the
condition is `None` when the `when` element has neither an `expression` nor
a `condition` attribute. -/
theorem c3_counterexample :
    (parse_mule_xml c3Root routerNs "P" "1.0.0" "T0").map
      (fun doc => (flowProcessors (firstFlow doc)).map
        (fun p => docField p "branches")) =
      .ok [some (JVal.arr [JVal.obj
        [("when", JVal.null),
         ("targets", JVal.arr [JVal.s "flow://t1"])]])] := by rfl

/-! Claim C4. -/

/-- C4: `NodeLookup.resolve` never fails — it returns the flow id on a flow
hit, else the subflow id on a subflow hit, else the synthesized
`flow://<name>` while appending exactly one Assumption entry that quotes the
name; consequently a `flow-ref` processor naming an unknown flow yields
exactly one edge, to `flow://<name>` via `flow-ref`, plus that one
Assumption, and parsing continues. -/
theorem c4_resolve_never_fails (lookup : NodeLookup) (name v : String)
    (st : List String) (idx : Nat) (elem : Elem)
    (ns : List (String × String)) (n : String) :
    (dictGet lookup.flows name = some v →
      lookup.resolve name st = .ok (v, st)) ∧
    (dictGet lookup.flows name = none → dictGet lookup.subflows name = some v →
      lookup.resolve name st = .ok (v, st)) ∧
    (dictGet lookup.flows name = none → dictGet lookup.subflows name = none →
      lookup.resolve name st = .ok ("flow://" ++ name,
        st ++ ["Reference to unknown flow or subflow \x27" ++ name ++ "\x27"])) ∧
    (local_name elem.tag = "flow-ref" → dictGet elem.attrib "name" = some n →
      n ≠ "" → dictGet lookup.flows n = none → dictGet lookup.subflows n = none →
      ∀ res st', parse_processor idx elem lookup ns st = .ok (res, st') →
        res.edges = [JVal.obj [("to", JVal.s ("flow://" ++ n)),
          ("via", JVal.s "flow-ref")]] ∧
        st' = st ++ ["Reference to unknown flow or subflow \x27" ++ n ++ "\x27"]) := by
  refine ⟨?_, ?_, ?_, ?_⟩
  · intro h
    simp [resolve_run, resolveId, resolveNotes, h]
  · intro h1 h2
    simp [resolve_run, resolveId, resolveNotes, h1, h2]
  · intro h1 h2
    simp [resolve_run, resolveId, resolveNotes, h1, h2]
  · intro hlf hn hne hf hs res st' h
    have hbr : extract_branches elem lookup ns st = .ok (([], []), st) := by
      simp [extract_branches, hlf, pm_pure_apply]
    cases hq : qualified_name elem.tag ns with
    | error e =>
        rw [show parse_processor idx elem lookup ns st = .error e by
          simp only [parse_processor, pm_bind_apply, liftE_apply, hq]] at h
        exact Except.noConfusion h
    | ok ty =>
        cases hb : build_attributes elem.attrib ns ["config-ref"] with
        | error e =>
            rw [show parse_processor idx elem lookup ns st = .error e by
              simp only [parse_processor, pm_bind_apply, liftE_apply, hq, hb]] at h
            exact Except.noConfusion h
        | ok attrs =>
            cases hdw : extract_dataweave elem ns with
            | error e =>
                rw [show parse_processor idx elem lookup ns st = .error e by
                  simp only [parse_processor, pm_bind_apply, liftE_apply, hq,
                    hb, hdw]] at h
                exact Except.noConfusion h
            | ok dwv =>
                have hrun : parse_processor idx elem lookup ns st =
                    .ok (⟨JVal.obj (processor_fields idx ty elem attrs dwv []),
                      [JVal.obj [("to", JVal.s ("flow://" ++ n)),
                        ("via", JVal.s "flow-ref")]]⟩,
                      st ++ ["Reference to unknown flow or subflow \x27" ++ n ++
                        "\x27"]) := by
                  simp [parse_processor, pm_bind_apply, liftE_apply, hq, hb,
                    hdw, hbr, hlf, hn, hne, resolve_run, resolveId,
                    resolveNotes, hf, hs, pm_pure_apply]
                rw [hrun] at h
                simp only [Except.ok.injEq, Prod.mk.injEq] at h
                obtain ⟨hres, hst⟩ := h
                constructor
                · rw [← hres]
                · rw [← hst]

/-- Lookup table for the C4 witness. -/
def c4Lookup : NodeLookup := ⟨[("f", "flow://f")], [("s", "subflow://s")]⟩

/-- C4 witness: all four behaviours at concrete inputs. -/
theorem c4_resolve_never_fails_witness :
    c4Lookup.resolve "f" [] = .ok ("flow://f", []) ∧
    c4Lookup.resolve "s" [] = .ok ("subflow://s", []) ∧
    c4Lookup.resolve "zz" [] = .ok ("flow://zz",
      [] ++ ["Reference to unknown flow or subflow \x27zz\x27"]) ∧
    (∀ res st', parse_processor 0 (el (coreTag "flow-ref") [("name", "zz")] [])
        c4Lookup routerNs [] = .ok (res, st') →
      res.edges = [JVal.obj [("to", JVal.s ("flow://" ++ "zz")),
        ("via", JVal.s "flow-ref")]] ∧
      st' = [] ++ ["Reference to unknown flow or subflow \x27zz\x27"]) := by
  have h := c4_resolve_never_fails c4Lookup "f" "flow://f" [] 0
    (el (coreTag "flow-ref") [("name", "zz")] []) routerNs "zz"
  have h2 := c4_resolve_never_fails c4Lookup "s" "subflow://s" [] 0
    (el (coreTag "flow-ref") [("name", "zz")] []) routerNs "zz"
  have h3 := c4_resolve_never_fails c4Lookup "zz" "x" [] 0
    (el (coreTag "flow-ref") [("name", "zz")] []) routerNs "zz"
  exact ⟨h.1 (by rfl), h2.2.1 (by rfl) (by rfl),
    h3.2.2.1 (by rfl) (by rfl),
    h3.2.2.2 (by rfl) (by rfl) (by decide) (by rfl) (by rfl)⟩

/-! Claim C1. -/

/-- C1: the claim (and the repository's own test
`test_router_branches_and_edges`) requires that the router fixture — a flow
holding a `choice` (one `when`, one `otherwise`), a `scatter-gather` with two
routes, a `first-successful` with one route and a `foreach` with a direct
`flow-ref` — produce one `choice.when`, one `choice.otherwise`, two
`scatter-gather`, one `first-successful` and one `foreach` edge, with
branch target lists per route.  Evaluating the embedded parser on that
fixture shows the code emits only the two choice edges and attaches
`branches` only to the `choice` processor: `extract_branches` returns empty
lists for every non-`choice` element and no other code path emits route
edges, so the `scatter-gather`, `first-successful` and `foreach` counts are
0, 0 and 0 instead of 2, 1 and 1. -/
theorem c1_router_route_edges_missing :
    (parse_mule_xml routerRoot routerNs "RouterProject" "1.0.0"
        "2024-01-01T00:00:00+00:00").map
      (fun doc =>
        (countVia (firstFlow doc) "choice.when",
         countVia (firstFlow doc) "choice.otherwise",
         countVia (firstFlow doc) "scatter-gather",
         countVia (firstFlow doc) "first-successful",
         countVia (firstFlow doc) "foreach",
         (flowProcessors (firstFlow doc)).map
           (fun p => (docField p "branches").isSome))) =
      .ok (1, 1, 0, 0, 0, [true, false, false, false]) := by rfl

/-! Claim C8. -/

theorem splitAfterChar_of_not_mem {c : Char} :
    ∀ {l : List Char}, c ∉ l → splitAfterChar c l = none := by
  intro l h
  induction l with
  | nil => rfl
  | cons x xs ih =>
      simp only [List.mem_cons, not_or] at h
      have hx : ¬ x = c := fun he => h.1 he.symm
      simp [splitAfterChar, hx, ih h.2]

theorem splitAfterChar_of_append {c : Char} (pre post : List Char)
    (h : c ∉ pre) :
    splitAfterChar c (pre ++ c :: post) = some (pre, post) := by
  induction pre with
  | nil => simp [splitAfterChar]
  | cons x xs ih =>
      simp only [List.mem_cons, not_or] at h
      have hx : ¬ x = c := fun he => h.1 he.symm
      simp [splitAfterChar, hx, ih h.2]

theorem String.mk_toList (s : String) : String.mk s.toList = s :=
  String.toList_inj.mp rfl

/-- C8 counterexample: the claim says `qualified_name` renders
`prefix:local` whenever the URI has an associated prefix in the map, and
that no input makes it fail.  Both parts fail on the code: a URI mapped to
the empty prefix (a default `xmlns=` declaration) renders the bare local
name, not `:local`, and a tag that opens a namespace decoration without
closing it makes the tuple unpacking raise `ValueError`. -/
theorem c8_counterexample :
    qualified_name "\x7bu\x7dlocal" [("u", "")] = .ok "local" ∧
    ("local" : String) ≠ ":local" ∧
    qualified_name "\x7bab" [] =
      .error "ValueError: not enough values to unpack (expected 2, got 1)" :=
  ⟨rfl, by decide, rfl⟩

/-- C8 amended: `qualified_name` is pure; for a namespace-decorated tag
`\x7buri\x7dlocal` it renders `prefix:local` when the namespace map
associates a non-empty prefix with the URI, and the bare local name when the
URI is absent from the map or maps to the empty prefix; an undecorated tag
is returned unchanged; the only failing inputs are tags that start with an
opening brace and contain no closing brace, on which CPython raises
`ValueError`. -/
theorem c8_qualified_name_amended (tag : String) (nm : List (String × String))
    (uri localPart : String) (pfx : String) :
    (∀ c rest, tag.toList = c :: rest → c ≠ Char.ofNat 123 →
        qualified_name tag nm = .ok tag) ∧
    (tag.toList = [] → qualified_name tag nm = .ok tag) ∧
    (tag.toList = Char.ofNat 123 :: (uri.toList ++ Char.ofNat 125 :: localPart.toList) →
      Char.ofNat 125 ∉ uri.toList →
      ((dictGet nm uri = some pfx → pfx ≠ "" →
          qualified_name tag nm = .ok (pfx ++ ":" ++ localPart)) ∧
       (dictGet nm uri = none → qualified_name tag nm = .ok localPart) ∧
       (dictGet nm uri = some "" → qualified_name tag nm = .ok localPart))) ∧
    (∀ rest, tag.toList = Char.ofNat 123 :: rest → Char.ofNat 125 ∉ rest →
      qualified_name tag nm =
        .error "ValueError: not enough values to unpack (expected 2, got 1)") := by
  refine ⟨?_, ?_, ?_, ?_⟩
  · intro c rest h hc
    have h2 : tag.data = c :: rest := h
    simp [qualified_name, h2, hc]
  · intro h
    have h2 : tag.data = [] := h
    simp [qualified_name, h2]
  · intro h hmem
    have h2 : tag.data =
        Char.ofNat 123 :: (uri.toList ++ Char.ofNat 125 :: localPart.toList) := h
    have hsplit : splitAfterChar (Char.ofNat 125)
        (uri.data ++ Char.ofNat 125 :: localPart.data) =
        some (uri.data, localPart.data) :=
      splitAfterChar_of_append (c := Char.ofNat 125)
        uri.toList localPart.toList hmem
    have hmkuri : String.mk uri.data = uri := String.mk_toList uri
    have hmkloc : String.mk localPart.data = localPart := String.mk_toList localPart
    refine ⟨?_, ?_, ?_⟩
    · intro hget hpfx
      simp [qualified_name, h2, hsplit, hmkuri, hmkloc, hget, hpfx]
    · intro hget
      simp [qualified_name, h2, hsplit, hmkuri, hmkloc, hget]
    · intro hget
      simp [qualified_name, h2, hsplit, hmkuri, hmkloc, hget]
  · intro rest h hmem
    have h2 : tag.data = Char.ofNat 123 :: rest := h
    have hsplit := splitAfterChar_of_not_mem (c := Char.ofNat 125) hmem
    simp [qualified_name, h2, hsplit]

/-- C8 amended, witness: the four behaviours at concrete inputs. -/
theorem c8_qualified_name_amended_witness :
    qualified_name "\x7bu\x7dx" [("u", "http")] = .ok "http:x" ∧
    qualified_name "\x7bu\x7dx" [] = .ok "x" ∧
    qualified_name "\x7bu\x7dx" [("u", "")] = .ok "x" ∧
    qualified_name "plain" [("u", "http")] = .ok "plain" ∧
    qualified_name "\x7bzz" [] =
      .error "ValueError: not enough values to unpack (expected 2, got 1)" := by
  refine ⟨?_, ?_, ?_, ?_, ?_⟩
  · exact (((c8_qualified_name_amended "\x7bu\x7dx" [("u", "http")] "u" "x"
      "http").2.2.1 (by decide) (by decide)).1 (by rfl) (by decide))
  · exact (((c8_qualified_name_amended "\x7bu\x7dx" [] "u" "x"
      "http").2.2.1 (by decide) (by decide)).2.1 (by rfl))
  · exact (((c8_qualified_name_amended "\x7bu\x7dx" [("u", "")] "u" "x"
      "http").2.2.1 (by decide) (by decide)).2.2 (by rfl))
  · exact ((c8_qualified_name_amended "plain" [("u", "http")] "u" "x"
      "http").1 (Char.ofNat 112) ['l', 'a', 'i', 'n'] (by decide) (by decide))
  · exact ((c8_qualified_name_amended "\x7bzz" [] "u" "x" "http").2.2.2
      ['z', 'z'] (by decide) (by decide))

theorem processor_fields_idx (idx : Nat) (ty : String) (elem : Elem)
    (attrs : List (String × String)) (dw : Option JVal) (branches : List JVal) :
    dictGet (processor_fields idx ty elem attrs dw branches) "idx" =
      some (JVal.i idx) := by
  simp only [processor_fields]
  repeat' split
  all_goals simp [dictGet_append, dictGet_cons, dictGet_nil]

theorem parse_processor_ok_shape (idx : Nat) (elem : Elem) (lookup : NodeLookup)
    (ns : List (String × String)) (st : List String)
    (res : ProcessorParseResult) (st' : List String)
    (h : parse_processor idx elem lookup ns st = .ok (res, st')) :
    ∃ ty attrs dw branches,
      res.processor = JVal.obj (processor_fields idx ty elem attrs dw branches) := by
  cases hq : qualified_name elem.tag ns with
  | error e =>
      rw [show parse_processor idx elem lookup ns st = .error e by
        simp only [parse_processor, pm_bind_apply, liftE_apply, hq]] at h
      exact Except.noConfusion h
  | ok ty =>
      cases hb : build_attributes elem.attrib ns ["config-ref"] with
      | error e =>
          rw [show parse_processor idx elem lookup ns st = .error e by
            simp only [parse_processor, pm_bind_apply, liftE_apply, hq, hb]] at h
          exact Except.noConfusion h
      | ok attrs =>
          cases hdw : extract_dataweave elem ns with
          | error e =>
              rw [show parse_processor idx elem lookup ns st = .error e by
                simp only [parse_processor, pm_bind_apply, liftE_apply, hq, hb,
                  hdw]] at h
              exact Except.noConfusion h
          | ok dwv =>
              cases hbr : extract_branches elem lookup ns st with
              | error e =>
                  rw [show parse_processor idx elem lookup ns st = .error e by
                    simp only [parse_processor, pm_bind_apply, liftE_apply, hq,
                      hb, hdw, hbr]] at h
                  exact Except.noConfusion h
              | ok bres =>
                  obtain ⟨⟨branches, edges0⟩, st1⟩ := bres
                  refine ⟨ty, attrs, dwv, branches, ?_⟩
                  by_cases hlf : local_name elem.tag = "flow-ref"
                  · cases hn : dictGet elem.attrib "name" with
                    | some n =>
                        by_cases hne : n = ""
                        · simp [parse_processor, pm_bind_apply, liftE_apply,
                            hq, hb, hdw, hbr, hlf, hn, hne, pm_pure_apply] at h
                          rw [← h.1]
                        · obtain ⟨t, st2, hres⟩ :
                            ∃ t st2, lookup.resolve n st1 = .ok (t, st2) :=
                            ⟨_, _, resolve_run lookup n st1⟩
                          simp [parse_processor, pm_bind_apply, liftE_apply,
                            hq, hb, hdw, hbr, hlf, hn, hne, hres,
                            pm_pure_apply] at h
                          rw [← h.1]
                    | none =>
                        simp [parse_processor, pm_bind_apply, liftE_apply,
                          hq, hb, hdw, hbr, hlf, hn, pm_pure_apply] at h
                        rw [← h.1]
                  · simp [parse_processor, pm_bind_apply, liftE_apply, hq,
                      hb, hdw, hbr, hlf, pm_pure_apply] at h
                    rw [← h.1]

theorem processorsGo_run (lookup : NodeLookup) (ns : List (String × String)) :
    ∀ (l : List Elem) (idx : Nat) (st : List String) (ps es : List JVal)
      (st' : List String),
      processorsGo lookup ns idx l st = .ok ((ps, es), st') →
      ps.length = l.length ∧
      ∀ j (hj : j < ps.length),
        docField (ps.get ⟨j, hj⟩) "idx" = some (JVal.i (idx + j)) := by
  intro l
  induction l with
  | nil =>
      intro idx st ps es st' h
      simp only [processorsGo, pm_pure_apply, Except.ok.injEq,
        Prod.mk.injEq] at h
      obtain ⟨⟨hps, _⟩, _⟩ := h
      subst hps
      exact ⟨rfl, fun j hj => absurd hj (by simp)⟩
  | cons child rest ih =>
      intro idx st ps es st' h
      cases hp : parse_processor idx child lookup ns st with
      | error e =>
          rw [show processorsGo lookup ns idx (child :: rest) st = .error e by
            simp only [processorsGo, pm_bind_apply, hp]] at h
          exact Except.noConfusion h
      | ok pres =>
          obtain ⟨res, st1⟩ := pres
          cases hr : processorsGo lookup ns (idx + 1) rest st1 with
          | error e =>
              rw [show processorsGo lookup ns idx (child :: rest) st = .error e by
                simp only [processorsGo, pm_bind_apply, hp, hr]] at h
              exact Except.noConfusion h
          | ok rres =>
              obtain ⟨⟨ps2, es2⟩, st2⟩ := rres
              have hstep : processorsGo lookup ns idx (child :: rest) st =
                  .ok ((res.processor :: ps2, res.edges ++ es2), st2) := by
                simp only [processorsGo, pm_bind_apply, hp, hr, pm_pure_apply]
              rw [hstep] at h
              simp only [Except.ok.injEq, Prod.mk.injEq] at h
              obtain ⟨⟨hps, hes⟩, hst⟩ := h
              subst hps
              obtain ⟨hlen, hidx⟩ := ih (idx + 1) st1 ps2 es2 st2 hr
              refine ⟨by simp [hlen], ?_⟩
              intro j hj
              cases j with
              | zero =>
                  obtain ⟨ty, attrs, dw, branches, hshape⟩ :=
                    parse_processor_ok_shape idx child lookup ns st res st1 hp
                  simpa [docField, hshape] using
                    processor_fields_idx idx ty child attrs dw branches
              | succ j =>
                  have hj2 : j < ps2.length := by
                    simpa using Nat.lt_of_succ_lt_succ hj
                  have h2 := hidx j hj2
                  simp only [List.get_eq_getElem] at h2 ⊢
                  simp only [List.getElem_cons_succ]
                  convert h2 using 3
                  push_cast
                  omega

theorem parse_flow_ok (elem : Elem) (lookup : NodeLookup)
    (ns : List (String × String)) (st : List String) (v : JVal)
    (st' : List String)
    (h : parse_flow elem lookup ns st = .ok (v, st')) :
    ∃ ps es st1 ehv st2 srcv,
      processorsGo lookup ns 0
        (elem.children.filter (fun c => local_name c.tag ≠ "error-handler")) st =
        .ok ((ps, es), st1) ∧
      error_handler_step elem lookup ns st1 = .ok (ehv, st2) ∧
      parse_source elem ns = .ok srcv ∧
      st' = st2 ∧
      v = JVal.obj (flow_fields elem lookup ps es srcv ehv) := by
  cases hp : processorsGo lookup ns 0
      (elem.children.filter (fun c => local_name c.tag ≠ "error-handler")) st with
  | error e =>
      rw [show parse_flow elem lookup ns st = .error e by
        simp only [parse_flow, pm_bind_apply, hp]] at h
      exact Except.noConfusion h
  | ok pres =>
      obtain ⟨⟨ps, es⟩, st1⟩ := pres
      cases heh : error_handler_step elem lookup ns st1 with
      | error e =>
          rw [show parse_flow elem lookup ns st = .error e by
            simp only [parse_flow, pm_bind_apply, hp, heh]] at h
          exact Except.noConfusion h
      | ok eres =>
          obtain ⟨ehv, st2⟩ := eres
          cases hsrc : parse_source elem ns with
          | error e =>
              rw [show parse_flow elem lookup ns st = .error e by
                simp only [parse_flow, pm_bind_apply, hp, heh, liftE_apply,
                  hsrc]] at h
              exact Except.noConfusion h
          | ok srcv =>
              have hrun : parse_flow elem lookup ns st =
                  .ok (JVal.obj (flow_fields elem lookup ps es srcv ehv), st2) := by
                simp only [parse_flow, pm_bind_apply, hp, heh, liftE_apply,
                  hsrc, pm_pure_apply]
              rw [hrun] at h
              simp only [Except.ok.injEq, Prod.mk.injEq] at h
              exact ⟨ps, es, st1, ehv, st2, srcv, rfl, heh, rfl, h.2.symm,
                h.1.symm⟩

theorem parse_subflow_ok (elem : Elem) (lookup : NodeLookup)
    (ns : List (String × String)) (st : List String) (v : JVal)
    (st' : List String)
    (h : parse_subflow elem lookup ns st = .ok (v, st')) :
    ∃ ps es st1 ehv st2,
      processorsGo lookup ns 0
        (elem.children.filter (fun c => local_name c.tag ≠ "error-handler")) st =
        .ok ((ps, es), st1) ∧
      error_handler_step elem lookup ns st1 = .ok (ehv, st2) ∧
      st' = st2 ∧
      v = JVal.obj (subflow_fields elem lookup ps ehv) := by
  cases hp : processorsGo lookup ns 0
      (elem.children.filter (fun c => local_name c.tag ≠ "error-handler")) st with
  | error e =>
      rw [show parse_subflow elem lookup ns st = .error e by
        simp only [parse_subflow, pm_bind_apply, hp]] at h
      exact Except.noConfusion h
  | ok pres =>
      obtain ⟨⟨ps, es⟩, st1⟩ := pres
      cases heh : error_handler_step elem lookup ns st1 with
      | error e =>
          rw [show parse_subflow elem lookup ns st = .error e by
            simp only [parse_subflow, pm_bind_apply, hp, heh]] at h
          exact Except.noConfusion h
      | ok eres =>
          obtain ⟨ehv, st2⟩ := eres
          have hrun : parse_subflow elem lookup ns st =
              .ok (JVal.obj (subflow_fields elem lookup ps ehv), st2) := by
            simp only [parse_subflow, pm_bind_apply, hp, heh, pm_pure_apply]
          rw [hrun] at h
          simp only [Except.ok.injEq, Prod.mk.injEq] at h
          exact ⟨ps, es, st1, ehv, st2, rfl, heh, h.2.symm, h.1.symm⟩

theorem flow_fields_name (elem : Elem) (lookup : NodeLookup)
    (ps es : List JVal) (srcv ehv : Option JVal) :
    dictGet (flow_fields elem lookup ps es srcv ehv) "name" =
      some (JVal.s ((dictGet elem.attrib "name").getD "")) := by
  simp only [flow_fields]
  repeat' split
  all_goals simp [dictGet_append, dictGet_cons, dictGet_nil]

theorem flow_fields_id (elem : Elem) (lookup : NodeLookup)
    (ps es : List JVal) (srcv ehv : Option JVal) :
    dictGet (flow_fields elem lookup ps es srcv ehv) "id" =
      some (JVal.s ((dictGet lookup.flows
        ((dictGet elem.attrib "name").getD "")).getD
        ("flow://" ++ (dictGet elem.attrib "name").getD ""))) := by
  simp only [flow_fields]
  repeat' split
  all_goals simp [dictGet_append, dictGet_cons, dictGet_nil]

theorem flow_fields_processors (elem : Elem) (lookup : NodeLookup)
    (ps es : List JVal) (srcv ehv : Option JVal) :
    dictGet (flow_fields elem lookup ps es srcv ehv) "processors" =
      some (JVal.arr ps) := by
  simp only [flow_fields]
  repeat' split
  all_goals simp [dictGet_append, dictGet_cons, dictGet_nil]

theorem subflow_fields_name (elem : Elem) (lookup : NodeLookup)
    (ps : List JVal) (ehv : Option JVal) :
    dictGet (subflow_fields elem lookup ps ehv) "name" =
      some (JVal.s ((dictGet elem.attrib "name").getD "")) := by
  simp only [subflow_fields]
  repeat' split
  all_goals simp [dictGet_append, dictGet_cons, dictGet_nil]

theorem subflow_fields_id (elem : Elem) (lookup : NodeLookup)
    (ps : List JVal) (ehv : Option JVal) :
    dictGet (subflow_fields elem lookup ps ehv) "id" =
      some (JVal.s ((dictGet lookup.subflows
        ((dictGet elem.attrib "name").getD "")).getD
        ("subflow://" ++ (dictGet elem.attrib "name").getD ""))) := by
  simp only [subflow_fields]
  repeat' split
  all_goals simp [dictGet_append, dictGet_cons, dictGet_nil]

theorem subflow_fields_processors (elem : Elem) (lookup : NodeLookup)
    (ps : List JVal) (ehv : Option JVal) :
    dictGet (subflow_fields elem lookup ps ehv) "processors" =
      some (JVal.arr ps) := by
  simp only [subflow_fields]
  repeat' split
  all_goals simp [dictGet_append, dictGet_cons, dictGet_nil]

theorem mapPM_run (f : Elem → PM JVal) :
    ∀ (l : List Elem) (st : List String) (vs : List JVal) (st' : List String),
      mapPM f l st = .ok (vs, st') →
      List.Forall₂ (fun e v => ∃ st1 st2, f e st1 = .ok (v, st2)) l vs := by
  intro l
  induction l with
  | nil =>
      intro st vs st' h
      simp only [mapPM, pm_pure_apply, Except.ok.injEq, Prod.mk.injEq] at h
      rw [← h.1]
      exact List.Forall₂.nil
  | cons e rest ih =>
      intro st vs st' h
      cases hf : f e st with
      | error msg =>
          rw [show mapPM f (e :: rest) st = .error msg by
            simp only [mapPM, pm_bind_apply, hf]] at h
          exact Except.noConfusion h
      | ok fres =>
          obtain ⟨v, st1⟩ := fres
          cases hr : mapPM f rest st1 with
          | error msg =>
              rw [show mapPM f (e :: rest) st = .error msg by
                simp only [mapPM, pm_bind_apply, hf, hr]] at h
              exact Except.noConfusion h
          | ok rres =>
              obtain ⟨vs2, st2⟩ := rres
              have hstep : mapPM f (e :: rest) st = .ok (v :: vs2, st2) := by
                simp only [mapPM, pm_bind_apply, hf, hr, pm_pure_apply]
              rw [hstep] at h
              simp only [Except.ok.injEq, Prod.mk.injEq] at h
              rw [← h.1]
              exact List.Forall₂.cons ⟨st, st1, hf⟩ (ih st1 vs2 st2 hr)

theorem docField_obj (fields : List (String × JVal)) (k : String) :
    docField (JVal.obj fields) k = dictGet fields k := rfl

theorem document_fields_flows (project schema_version generatedAt : String)
    (flows subflows : List JVal) (assumptions : List String) :
    dictGet (document_fields project schema_version generatedAt flows subflows
      assumptions) "flows" = some (JVal.arr flows) := by
  simp only [document_fields]
  repeat' split
  all_goals simp [dictGet_append, dictGet_cons, dictGet_nil]

theorem document_fields_subflows (project schema_version generatedAt : String)
    (flows subflows : List JVal) (assumptions : List String) :
    dictGet (document_fields project schema_version generatedAt flows subflows
      assumptions) "subflows" = some (JVal.arr subflows) := by
  simp only [document_fields]
  repeat' split
  all_goals simp [dictGet_append, dictGet_cons, dictGet_nil]

theorem parse_mule_xml_ok (root : Elem) (ns : List (String × String))
    (proj ver t : String) (doc : JVal)
    (h : parse_mule_xml root ns proj ver t = .ok doc) :
    ∃ flows subflows st1 assumptions,
      mapPM (fun e => parse_flow e (node_lookup root) ns) (flow_elements root)
        [] = .ok (flows, st1) ∧
      mapPM (fun e => parse_subflow e (node_lookup root) ns)
        (subflow_elements root) st1 = .ok (subflows, assumptions) ∧
      doc = JVal.obj (document_fields proj ver t flows subflows assumptions) := by
  cases h1 : mapPM (fun e => parse_flow e (node_lookup root) ns)
      (flow_elements root) [] with
  | error e =>
      rw [show parse_mule_xml root ns proj ver t = .error e by
        simp only [parse_mule_xml, pm_bind_apply, h1]] at h
      exact Except.noConfusion h
  | ok fres =>
      obtain ⟨flows, st1⟩ := fres
      cases h2 : mapPM (fun e => parse_subflow e (node_lookup root) ns)
          (subflow_elements root) st1 with
      | error e =>
          rw [show parse_mule_xml root ns proj ver t = .error e by
            simp only [parse_mule_xml, pm_bind_apply, h1, h2]] at h
          exact Except.noConfusion h
      | ok sres =>
          obtain ⟨subflows, assumptions⟩ := sres
          have hrun : parse_mule_xml root ns proj ver t =
              .ok (JVal.obj (document_fields proj ver t flows subflows
                assumptions)) := by
            simp only [parse_mule_xml, pm_bind_apply, h1, h2, pm_pure_apply]
          rw [hrun] at h
          exact ⟨flows, subflows, st1, assumptions, rfl, h2,
            (Except.ok.inj h).symm⟩

theorem forall₂_map_eq {l : List Elem} {vs : List JVal}
    (f : JVal → Option JVal) (g : Elem → Option JVal)
    (h : List.Forall₂ (fun e v => f v = g e) l vs) : vs.map f = l.map g := by
  induction h with
  | nil => rfl
  | cons h1 _ ih => simp [h1, ih]

theorem parse_flow_name_field (lookup : NodeLookup)
    (ns : List (String × String)) (e : Elem) (v : JVal)
    (hex : ∃ st1 st2, parse_flow e lookup ns st1 = .ok (v, st2)) :
    docField v "name" = some (JVal.s ((dictGet e.attrib "name").getD "")) := by
  obtain ⟨st1, st2, h⟩ := hex
  obtain ⟨ps, es, _, ehv, _, srcv, _, _, _, _, hv⟩ :=
    parse_flow_ok e lookup ns st1 v st2 h
  rw [hv, docField_obj]
  exact flow_fields_name e lookup ps es srcv ehv

theorem parse_subflow_name_field (lookup : NodeLookup)
    (ns : List (String × String)) (e : Elem) (v : JVal)
    (hex : ∃ st1 st2, parse_subflow e lookup ns st1 = .ok (v, st2)) :
    docField v "name" = some (JVal.s ((dictGet e.attrib "name").getD "")) := by
  obtain ⟨st1, st2, h⟩ := hex
  obtain ⟨ps, es, _, ehv, _, _, _, _, hv⟩ :=
    parse_subflow_ok e lookup ns st1 v st2 h
  rw [hv, docField_obj]
  exact subflow_fields_name e lookup ps ehv

/-! Claims C5 and C9. -/

/-- C5: for every well-formed input containing at least one flow, the
Document\x27s `flows` array has one entry per top-level `flow` element and
`subflows` one entry per top-level `sub-flow`/`subflow` element, each in
document order (witnessed by the per-position `name` fields). -/
theorem c5_flow_subflow_counts (root : Elem) (ns : List (String × String))
    (proj ver t : String) (doc : JVal)
    (hok : parse_mule_xml root ns proj ver t = .ok doc)
    (_hne : flow_elements root ≠ []) :
    ∃ flows subflows,
      docField doc "flows" = some (JVal.arr flows) ∧
      docField doc "subflows" = some (JVal.arr subflows) ∧
      flows.length = (flow_elements root).length ∧
      subflows.length = (subflow_elements root).length ∧
      flows.map (fun f => docField f "name") =
        (flow_elements root).map
          (fun e => some (JVal.s ((dictGet e.attrib "name").getD ""))) ∧
      subflows.map (fun f => docField f "name") =
        (subflow_elements root).map
          (fun e => some (JVal.s ((dictGet e.attrib "name").getD ""))) := by
  obtain ⟨flows, subflows, st1, assumptions, h1, h2, hdoc⟩ :=
    parse_mule_xml_ok root ns proj ver t doc hok
  have hf2 := mapPM_run _ _ _ _ _ h1
  have hs2 := mapPM_run _ _ _ _ _ h2
  refine ⟨flows, subflows, ?_, ?_, ?_, ?_, ?_, ?_⟩
  · rw [hdoc, docField_obj]
    exact document_fields_flows proj ver t flows subflows assumptions
  · rw [hdoc, docField_obj]
    exact document_fields_subflows proj ver t flows subflows assumptions
  · exact hf2.length_eq.symm
  · exact hs2.length_eq.symm
  · refine forall₂_map_eq _ _ ?_
    exact hf2.imp (fun {e v} hx => parse_flow_name_field (node_lookup root) ns e v hx)
  · refine forall₂_map_eq _ _ ?_
    exact hs2.imp (fun {e v} hx => parse_subflow_name_field (node_lookup root) ns e v hx)

/-- C9: in every parsed flow and subflow the `idx` values of the
processors form the dense zero-based sequence `0, 1, ..., n-1` in document
order, where `error-handler` direct children are excluded from the
enumeration and consume no index. -/
theorem c9_processor_idx_dense (elem : Elem) (lookup : NodeLookup)
    (ns : List (String × String)) (st : List String) (v w : JVal)
    (stF stS : List String) :
    (parse_flow elem lookup ns st = .ok (v, stF) →
      ∃ ps, docField v "processors" = some (JVal.arr ps) ∧
        ps.length = (elem.children.filter
          (fun c => local_name c.tag ≠ "error-handler")).length ∧
        ∀ j (hj : j < ps.length),
          docField (ps.get ⟨j, hj⟩) "idx" = some (JVal.i j)) ∧
    (parse_subflow elem lookup ns st = .ok (w, stS) →
      ∃ ps, docField w "processors" = some (JVal.arr ps) ∧
        ps.length = (elem.children.filter
          (fun c => local_name c.tag ≠ "error-handler")).length ∧
        ∀ j (hj : j < ps.length),
          docField (ps.get ⟨j, hj⟩) "idx" = some (JVal.i j)) := by
  constructor
  · intro h
    obtain ⟨ps, es, st1, ehv, st2, srcv, hp, heh, hsrc, hst, hv⟩ :=
      parse_flow_ok elem lookup ns st v stF h
    obtain ⟨hlen, hidx⟩ := processorsGo_run lookup ns _ 0 st ps es st1 hp
    refine ⟨ps, ?_, hlen, ?_⟩
    · rw [hv, docField_obj]
      exact flow_fields_processors elem lookup ps es srcv ehv
    · intro j hj
      simpa using hidx j hj
  · intro h
    obtain ⟨ps, es, st1, ehv, st2, hp, heh, hst, hw⟩ :=
      parse_subflow_ok elem lookup ns st w stS h
    obtain ⟨hlen, hidx⟩ := processorsGo_run lookup ns _ 0 st ps es st1 hp
    refine ⟨ps, ?_, hlen, ?_⟩
    · rw [hw, docField_obj]
      exact subflow_fields_processors elem lookup ps ehv
    · intro j hj
      simpa using hidx j hj


/-- The document produced for the router fixture (used by witnesses). -/
def routerDoc : JVal :=
  (parse_mule_xml routerRoot routerNs "RouterProject" "1.0.0"
    "T0").toOption.getD JVal.null

/-- C5 witness: the router fixture has one flow and six subflows. -/
theorem c5_flow_subflow_counts_witness :
    ∃ flows subflows,
      docField routerDoc "flows" = some (JVal.arr flows) ∧
      docField routerDoc "subflows" = some (JVal.arr subflows) ∧
      flows.length = (flow_elements routerRoot).length ∧
      subflows.length = (subflow_elements routerRoot).length ∧
      flows.map (fun f => docField f "name") =
        (flow_elements routerRoot).map
          (fun e => some (JVal.s ((dictGet e.attrib "name").getD ""))) ∧
      subflows.map (fun f => docField f "name") =
        (subflow_elements routerRoot).map
          (fun e => some (JVal.s ((dictGet e.attrib "name").getD ""))) :=
  c5_flow_subflow_counts routerRoot routerNs "RouterProject" "1.0.0" "T0"
    routerDoc (by rfl)
    (by rw [show flow_elements routerRoot = [routerFlowElem] from rfl]
        exact List.cons_ne_nil _ _)

/-- The run of `parse_flow` on the router flow (used by the C9 witness). -/
def c9FlowRun : JVal × List String :=
  match parse_flow routerFlowElem (node_lookup routerRoot) routerNs [] with
  | .ok r => r
  | .error _ => (JVal.null, [])

/-- A two-processor subflow element (used by the C9 witness). -/
def c9SubElem : Elem :=
  el (coreTag "sub-flow") [("name", "s")]
    [el (coreTag "logger") [] [], el (coreTag "logger") [] []]

/-- The run of `parse_subflow` on `c9SubElem` (used by the C9 witness). -/
def c9SubRun : JVal × List String :=
  match parse_subflow c9SubElem ⟨[], []⟩ routerNs [] with
  | .ok r => r
  | .error _ => (JVal.null, [])

/-- C9 witness at the router flow and a concrete subflow. -/
theorem c9_processor_idx_dense_witness :
    (∃ ps, docField c9FlowRun.1 "processors" = some (JVal.arr ps) ∧
      ps.length = (routerFlowElem.children.filter
        (fun c => local_name c.tag ≠ "error-handler")).length ∧
      ∀ j (hj : j < ps.length),
        docField (ps.get ⟨j, hj⟩) "idx" = some (JVal.i j)) ∧
    (∃ ps, docField c9SubRun.1 "processors" = some (JVal.arr ps) ∧
      ps.length = (c9SubElem.children.filter
        (fun c => local_name c.tag ≠ "error-handler")).length ∧
      ∀ j (hj : j < ps.length),
        docField (ps.get ⟨j, hj⟩) "idx" = some (JVal.i j)) :=
  ⟨(c9_processor_idx_dense routerFlowElem (node_lookup routerRoot) routerNs []
      c9FlowRun.1 c9FlowRun.1 c9FlowRun.2 c9FlowRun.2).1 (by rfl),
   (c9_processor_idx_dense c9SubElem ⟨[], []⟩ routerNs []
      c9SubRun.1 c9SubRun.1 c9SubRun.2 c9SubRun.2).2 (by rfl)⟩

/-- A document value with its `generatedAt` field removed. -/
def dropGeneratedAt (doc : JVal) : JVal :=
  match doc with
  | .obj fields => .obj (fields.filter (fun p => p.1 ≠ "generatedAt"))
  | x => x

theorem document_fields_drop_generated (proj ver : String) (t1 t2 : String)
    (flows subflows : List JVal) (assumptions : List String) :
    (document_fields proj ver t1 flows subflows assumptions).filter
      (fun p => p.1 ≠ "generatedAt") =
    (document_fields proj ver t2 flows subflows assumptions).filter
      (fun p => p.1 ≠ "generatedAt") := by
  by_cases ha : assumptions = [] <;>
    simp [document_fields, ha, List.filter]

theorem forall₂_mem_right {α β : Type} {R : α → β → Prop} :
    ∀ {l : List α} {vs : List β}, List.Forall₂ R l vs →
      ∀ v ∈ vs, ∃ e ∈ l, R e v := by
  intro l vs h
  induction h with
  | nil => intro v hv; simp at hv
  | cons h1 _ ih =>
      intro v hv
      rcases List.mem_cons.mp hv with heq | htail
      · subst heq
        exact ⟨_, List.mem_cons_self _ _, h1⟩
      · obtain ⟨e, he, hr⟩ := ih v htail
        exact ⟨e, List.mem_cons_of_mem _ he, hr⟩

theorem buildIdDict_val_aux (pfx : String) :
    ∀ (l : List Elem) (acc : List (String × String)),
      (∀ k v, dictGet acc k = some v → v = pfx ++ k) →
      ∀ k v, dictGet (l.foldl
        (fun d e =>
          match dictGet e.attrib "name" with
          | some n => if n ≠ "" then dictInsert d n (pfx ++ n) else d
          | none => d) acc) k = some v → v = pfx ++ k := by
  intro l
  induction l with
  | nil => intro acc hacc k v h; exact hacc k v h
  | cons e rest ih =>
      intro acc hacc k v h
      refine ih _ ?_ k v h
      intro k' v' h'
      simp only [] at h'
      cases hn : dictGet e.attrib "name" with
      | some n =>
          simp only [hn] at h'
          by_cases hne : n = ""
          · simp [hne] at h'
            exact hacc k' v' h'
          · simp only [hne, not_false_eq_true, ne_eq, if_true, ite_not,
              if_neg hne] at h'
            rw [dictGet_dictInsert] at h'
            by_cases hk : n = k'
            · rw [if_pos hk] at h'
              rw [← hk, ← Option.some.inj h']
            · rw [if_neg hk] at h'
              exact hacc k' v' h'
      | none =>
          simp only [hn] at h'
          exact hacc k' v' h'

theorem buildIdDict_val (pfx : String) (l : List Elem) (k v : String)
    (h : dictGet (buildIdDict pfx l) k = some v) : v = pfx ++ k := by
  refine buildIdDict_val_aux pfx l [] ?_ k v h
  intro k' v' h'
  simp [dictGet] at h'

theorem flow_fields_id_pure (root : Elem) (e : Elem) (ps es : List JVal)
    (srcv ehv : Option JVal) :
    dictGet (flow_fields e (node_lookup root) ps es srcv ehv) "id" =
      some (JVal.s ("flow://" ++ (dictGet e.attrib "name").getD "")) := by
  rw [flow_fields_id]
  cases hget : dictGet (node_lookup root).flows
      ((dictGet e.attrib "name").getD "") with
  | none => simp
  | some idv =>
      have := buildIdDict_val "flow://" (flow_elements root) _ idv hget
      simp [this]

theorem subflow_fields_id_pure (root : Elem) (e : Elem) (ps : List JVal)
    (ehv : Option JVal) :
    dictGet (subflow_fields e (node_lookup root) ps ehv) "id" =
      some (JVal.s ("subflow://" ++ (dictGet e.attrib "name").getD "")) := by
  rw [subflow_fields_id]
  cases hget : dictGet (node_lookup root).subflows
      ((dictGet e.attrib "name").getD "") with
  | none => simp
  | some idv =>
      have := buildIdDict_val "subflow://" (subflow_elements root) _ idv hget
      simp [this]

/-! Claim C7. -/

/-- C7: parsing is deterministic — two runs on identical root, namespace
map, project and schema version (differing only in the ambient clock
reading) produce Documents equal in every field except `generatedAt`; and
every flow/subflow identifier is the pure function `kind://name` of its
kind and name, so identifiers and edge targets are stable across runs. -/
theorem c7_determinism (root : Elem) (ns : List (String × String))
    (proj ver t1 t2 : String) :
    (parse_mule_xml root ns proj ver t1).map dropGeneratedAt =
      (parse_mule_xml root ns proj ver t2).map dropGeneratedAt ∧
    (∀ doc flows, parse_mule_xml root ns proj ver t1 = .ok doc →
      docField doc "flows" = some (JVal.arr flows) →
      ∀ f ∈ flows, ∃ name,
        docField f "id" = some (JVal.s ("flow://" ++ name)) ∧
        docField f "name" = some (JVal.s name)) ∧
    (∀ doc subflows, parse_mule_xml root ns proj ver t1 = .ok doc →
      docField doc "subflows" = some (JVal.arr subflows) →
      ∀ f ∈ subflows, ∃ name,
        docField f "id" = some (JVal.s ("subflow://" ++ name)) ∧
        docField f "name" = some (JVal.s name)) := by
  refine ⟨?_, ?_, ?_⟩
  · cases h1 : mapPM (fun e => parse_flow e (node_lookup root) ns)
        (flow_elements root) [] with
    | error e =>
        simp only [parse_mule_xml, pm_bind_apply, h1]
    | ok fres =>
        obtain ⟨flows, st1⟩ := fres
        cases h2 : mapPM (fun e => parse_subflow e (node_lookup root) ns)
            (subflow_elements root) st1 with
        | error e =>
            simp only [parse_mule_xml, pm_bind_apply, h1, h2]
        | ok sres =>
            obtain ⟨subflows, assumptions⟩ := sres
            simp only [parse_mule_xml, pm_bind_apply, h1, h2, pm_pure_apply,
              Except.map]
            simp only [dropGeneratedAt]
            rw [document_fields_drop_generated proj ver t1 t2]
  · intro doc flows hok hflows f hf
    obtain ⟨flows0, subflows0, st1, assumptions, h1, h2, hdoc⟩ :=
      parse_mule_xml_ok root ns proj ver t1 doc hok
    have hfl : flows0 = flows := by
      have := document_fields_flows proj ver t1 flows0 subflows0 assumptions
      rw [hdoc, docField_obj, this] at hflows
      exact (JVal.arr.inj (Option.some.inj hflows))
    subst hfl
    have hforall := mapPM_run _ _ _ _ _ h1
    obtain ⟨e, he, hx⟩ := forall₂_mem_right hforall f hf
    obtain ⟨st1', st2', hrun⟩ := hx
    obtain ⟨ps, es, _, ehv, _, srcv, _, _, _, _, hv⟩ :=
      parse_flow_ok e (node_lookup root) ns st1' f st2' hrun
    refine ⟨(dictGet e.attrib "name").getD "", ?_, ?_⟩
    · rw [hv, docField_obj]
      exact flow_fields_id_pure root e ps es srcv ehv
    · rw [hv, docField_obj]
      exact flow_fields_name e (node_lookup root) ps es srcv ehv
  · intro doc subflows hok hsubflows f hf
    obtain ⟨flows0, subflows0, st1, assumptions, h1, h2, hdoc⟩ :=
      parse_mule_xml_ok root ns proj ver t1 doc hok
    have hfl : subflows0 = subflows := by
      have := document_fields_subflows proj ver t1 flows0 subflows0 assumptions
      rw [hdoc, docField_obj, this] at hsubflows
      exact (JVal.arr.inj (Option.some.inj hsubflows))
    subst hfl
    have hforall := mapPM_run _ _ _ _ _ h2
    obtain ⟨e, he, hx⟩ := forall₂_mem_right hforall f hf
    obtain ⟨st1', st2', hrun⟩ := hx
    obtain ⟨ps, es, _, ehv, _, _, _, _, hv⟩ :=
      parse_subflow_ok e (node_lookup root) ns st1' f st2' hrun
    refine ⟨(dictGet e.attrib "name").getD "", ?_, ?_⟩
    · rw [hv, docField_obj]
      exact subflow_fields_id_pure root e ps ehv
    · rw [hv, docField_obj]
      exact subflow_fields_name e (node_lookup root) ps ehv

/-- The flows array of `routerDoc` (used by the C7 witness). -/
def routerFlows : List JVal :=
  match docField routerDoc "flows" with
  | some (.arr l) => l
  | _ => []

/-- The subflows array of `routerDoc` (used by the C7 witness). -/
def routerSubflows : List JVal :=
  match docField routerDoc "subflows" with
  | some (.arr l) => l
  | _ => []

/-- C7 witness at the router fixture with two distinct timestamps. -/
theorem c7_determinism_witness :
    (parse_mule_xml routerRoot routerNs "RouterProject" "1.0.0" "T0").map
        dropGeneratedAt =
      (parse_mule_xml routerRoot routerNs "RouterProject" "1.0.0" "T1").map
        dropGeneratedAt ∧
    (∀ f ∈ routerFlows, ∃ name,
      docField f "id" = some (JVal.s ("flow://" ++ name)) ∧
      docField f "name" = some (JVal.s name)) ∧
    (∀ f ∈ routerSubflows, ∃ name,
      docField f "id" = some (JVal.s ("subflow://" ++ name)) ∧
      docField f "name" = some (JVal.s name)) := by
  have h := c7_determinism routerRoot routerNs "RouterProject" "1.0.0" "T0" "T1"
  exact ⟨h.1, h.2.1 routerDoc routerFlows (by rfl) (by rfl),
    h.2.2 routerDoc routerSubflows (by rfl) (by rfl)⟩

/-! Claim C10. -/

/-- The `maxConcurrency` attribute string of a processor dictionary, along
the exact access path of `derive_flags`. -/
def procMaxConc (p : JVal) : Option String :=
  match p with
  | .obj fields =>
      match dictGet fields "attributes" with
      | some (.obj attrs) =>
          match dictGet attrs "maxConcurrency" with
          | some (.s v) => some v
          | _ => none
      | _ => none
  | _ => none

/-- A processor dictionary that can turn the parallelism flag on: it
carries a `maxConcurrency` attribute parsing to a positive integer. -/
def procQualifiesParallel (p : JVal) : Prop :=
  ∃ v n, procMaxConc p = some v ∧ pythonInt v = some n ∧ 0 < n

/-- A processor dictionary carrying a truthy `dw` entry. -/
def procHasDw (p : JVal) : Prop :=
  ∃ fields dw, p = JVal.obj fields ∧ dictGet fields "dw" = some dw ∧
    jTruthy dw = true

theorem deriveFlagsGo_cons (p : JVal) (rest : List JVal)
    (flags : List (String × JVal)) :
    deriveFlagsGo (p :: rest) flags =
      match procMaxConc p with
      | some v =>
          match pythonInt v with
          | some value =>
              deriveFlagsGo rest (dwCheck p
                (if value > 0 then dictInsert flags "parallelism" (JVal.i value)
                 else flags))
          | none => deriveFlagsGo rest flags
      | none => deriveFlagsGo rest (dwCheck p flags) := by
  rcases p with w | w | w | _ | items | fields
  case obj =>
    cases hattr : dictGet fields "attributes" with
    | none => simp [deriveFlagsGo, procMaxConc, hattr, dictGet_nil]
    | some av =>
        rcases av with w | w | w | _ | it | attrs
        case obj =>
          cases hmc : dictGet attrs "maxConcurrency" with
          | none => simp [deriveFlagsGo, procMaxConc, hattr, hmc]
          | some mv =>
              rcases mv with u | u | u | _ | it2 | f2 <;>
                simp [deriveFlagsGo, procMaxConc, hattr, hmc]
        all_goals simp [deriveFlagsGo, procMaxConc, hattr, dictGet_nil]
  all_goals simp [deriveFlagsGo, procMaxConc, dictGet_nil]

theorem deriveFlagsGo_cons_none (p : JVal) (rest : List JVal)
    (flags : List (String × JVal)) (hmc : procMaxConc p = none) :
    deriveFlagsGo (p :: rest) flags = deriveFlagsGo rest (dwCheck p flags) := by
  have h := deriveFlagsGo_cons p rest flags
  rw [hmc] at h
  exact h

theorem deriveFlagsGo_cons_badint (p : JVal) (rest : List JVal)
    (flags : List (String × JVal)) (v : String)
    (hmc : procMaxConc p = some v) (hpi : pythonInt v = none) :
    deriveFlagsGo (p :: rest) flags = deriveFlagsGo rest flags := by
  have h := deriveFlagsGo_cons p rest flags
  rw [hmc] at h
  simp only [hpi] at h
  exact h

theorem deriveFlagsGo_cons_int (p : JVal) (rest : List JVal)
    (flags : List (String × JVal)) (v : String) (value : Int)
    (hmc : procMaxConc p = some v) (hpi : pythonInt v = some value) :
    deriveFlagsGo (p :: rest) flags = deriveFlagsGo rest (dwCheck p
      (if value > 0 then dictInsert flags "parallelism" (JVal.i value)
       else flags)) := by
  have h := deriveFlagsGo_cons p rest flags
  rw [hmc] at h
  simp only [hpi] at h
  exact h

theorem dwCheck_parallelism (p : JVal) (fl : List (String × JVal)) :
    (dictGet (dwCheck p fl) "parallelism").isSome =
      (dictGet fl "parallelism").isSome := by
  unfold dwCheck
  repeat' split
  all_goals simp [dictGet_dictInsert]

theorem dwCheck_no_dw (p : JVal) (fl : List (String × JVal))
    (h : ¬ procHasDw p) : dwCheck p fl = fl := by
  unfold dwCheck
  rcases p with w | w | w | _ | items | fields
  case obj =>
    cases hdw : dictGet fields "dw" with
    | none => simp [hdw]
    | some dw =>
        simp only [hdw]
        split
        · next hjt => exact absurd ⟨fields, dw, rfl, hdw, hjt⟩ h
        · rfl
  all_goals rfl

theorem nonqualify_head (p : JVal) {v : String} {value : Int}
    (hmc : procMaxConc p = some v) (hpi : pythonInt v = some value)
    (hnpos : ¬ value > 0) : ¬ procQualifiesParallel p := by
  rintro ⟨v2, n2, hmc2, hpi2, hpos2⟩
  rw [hmc] at hmc2
  rw [Option.some.inj hmc2] at hpi
  rw [hpi] at hpi2
  rw [← Option.some.inj hpi2] at hpos2
  exact hnpos hpos2

theorem deriveFlagsGo_parallelism (ps : List JVal) :
    ∀ acc, (dictGet (deriveFlagsGo ps acc) "parallelism").isSome ↔
      ((dictGet acc "parallelism").isSome ∨
        ∃ p ∈ ps, procQualifiesParallel p) := by
  induction ps with
  | nil => intro acc; simp [deriveFlagsGo]
  | cons p rest ih =>
      intro acc
      rw [deriveFlagsGo_cons]
      have hsplit : ∀ (P : Prop), (P ∨ ∃ q ∈ p :: rest, procQualifiesParallel q) ↔
          ((P ∨ procQualifiesParallel p) ∨ ∃ q ∈ rest, procQualifiesParallel q) := by
        intro P
        constructor
        · rintro (h | ⟨q, hq, hqq⟩)
          · exact Or.inl (Or.inl h)
          · rcases List.mem_cons.mp hq with heq | htail
            · exact Or.inl (Or.inr (heq ▸ hqq))
            · exact Or.inr ⟨q, htail, hqq⟩
        · rintro ((h | h) | ⟨q, hq, hqq⟩)
          · exact Or.inl h
          · exact Or.inr ⟨p, List.mem_cons_self _ _, h⟩
          · exact Or.inr ⟨q, List.mem_cons_of_mem _ hq, hqq⟩
      cases hmc : procMaxConc p with
      | none =>
          have hnq : ¬ procQualifiesParallel p := by
            rintro ⟨v, n, hv, _, _⟩
            rw [hmc] at hv
            exact Option.noConfusion hv
          simp [ih, dwCheck_parallelism, hsplit, hnq]
      | some v =>
          cases hpi : pythonInt v with
          | none =>
              have hnq : ¬ procQualifiesParallel p := by
                rintro ⟨v2, n, hv, hp2, _⟩
                rw [hmc] at hv
                rw [Option.some.inj hv] at hpi
                rw [hpi] at hp2
                exact Option.noConfusion hp2
              simp [hpi, ih, hsplit, hnq]
          | some value =>
              by_cases hpos : value > 0
              · have hq : procQualifiesParallel p := ⟨v, value, hmc, hpi, hpos⟩
                simp [hpi, hpos, ih, dwCheck_parallelism, hsplit, hq,
                  dictGet_dictInsert]
              · simp [hpi, hpos, ih, dwCheck_parallelism, hsplit,
                  nonqualify_head p hmc hpi hpos]

theorem deriveFlagsGo_empty (ps : List JVal) :
    ∀ acc, (∀ p ∈ ps, ¬ procQualifiesParallel p) →
      (∀ p ∈ ps, ¬ procHasDw p) → deriveFlagsGo ps acc = acc := by
  induction ps with
  | nil => intro acc _ _; rfl
  | cons p rest ih =>
      intro acc hq hd
      have hqp : ¬ procQualifiesParallel p := hq p (List.mem_cons_self _ _)
      have hdp : ¬ procHasDw p := hd p (List.mem_cons_self _ _)
      have hqr : ∀ q ∈ rest, ¬ procQualifiesParallel q :=
        fun q hqm => hq q (List.mem_cons_of_mem _ hqm)
      have hdr : ∀ q ∈ rest, ¬ procHasDw q :=
        fun q hqm => hd q (List.mem_cons_of_mem _ hqm)
      cases hmc : procMaxConc p with
      | none =>
          rw [deriveFlagsGo_cons_none p rest acc hmc, dwCheck_no_dw p acc hdp]
          exact ih acc hqr hdr
      | some v =>
          cases hpi : pythonInt v with
          | none =>
              rw [deriveFlagsGo_cons_badint p rest acc v hmc hpi]
              exact ih acc hqr hdr
          | some value =>
              by_cases hpos : value > 0
              · exact absurd ⟨v, value, hmc, hpi, hpos⟩ hqp
              · rw [deriveFlagsGo_cons_int p rest acc v value hmc hpi,
                  if_neg hpos, dwCheck_no_dw p acc hdp]
                exact ih acc hqr hdr

theorem derive_flags_parallelism (ps : List JVal) :
    (∃ fl, derive_flags ps = some (JVal.obj fl) ∧
      (dictGet fl "parallelism").isSome = true) ↔
    ∃ p ∈ ps, procQualifiesParallel p := by
  have hmain := deriveFlagsGo_parallelism ps []
  rw [dictGet_nil] at hmain
  simp only [Option.isSome_none, Bool.false_eq_true, false_or] at hmain
  unfold derive_flags
  by_cases h : deriveFlagsGo ps [] = []
  · rw [h] at hmain
    simp only [h, if_pos rfl]
    simp [dictGet_nil, ← hmain]
  · simp only [if_neg h]
    constructor
    · rintro ⟨fl, hfl, hp⟩
      rw [← JVal.obj.inj (Option.some.inj hfl)] at hp
      exact hmain.mp hp
    · intro hq
      exact ⟨deriveFlagsGo ps [], rfl, hmain.mpr hq⟩

theorem derive_flags_truthy (ps : List JVal) (fl : JVal)
    (h : derive_flags ps = some fl) : jTruthy fl = true := by
  unfold derive_flags at h
  by_cases he : deriveFlagsGo ps [] = []
  · simp [he] at h
  · simp only [if_neg he] at h
    rw [← Option.some.inj h]
    simpa [jTruthy] using he

theorem flow_fields_flags (elem : Elem) (lookup : NodeLookup)
    (ps es : List JVal) (srcv ehv : Option JVal) :
    dictGet (flow_fields elem lookup ps es srcv ehv) "flags" =
      (match derive_flags ps with
       | some fl => if jTruthy fl then some fl else none
       | none => none) := by
  simp only [flow_fields]
  repeat' split
  all_goals simp_all [dictGet_append, dictGet_cons, dictGet_nil]

/-- C10: the flags map contains a `parallelism` entry iff some top-level
processor carries a `maxConcurrency` attribute parsing to an integer
strictly greater than zero; `maxConcurrency` values of `0`, negative or
non-numeric produce no parallelism flag and raise no error (`derive_flags`
is a total function); and a flow where no flag condition holds (no
qualifying `maxConcurrency` and no DataWeave info on any processor) has no
`flags` key at all. -/
theorem c10_parallelism_flag (ps : List JVal) (elem : Elem)
    (lookup : NodeLookup) (ns : List (String × String)) (st stF : List String)
    (v : JVal) :
    ((∃ fl, derive_flags ps = some (JVal.obj fl) ∧
        (dictGet fl "parallelism").isSome = true) ↔
      ∃ p ∈ ps, procQualifiesParallel p) ∧
    (parse_flow elem lookup ns st = .ok (v, stF) →
      ∃ ps', docField v "processors" = some (JVal.arr ps') ∧
        ((∃ fl, docField v "flags" = some (JVal.obj fl) ∧
            (dictGet fl "parallelism").isSome = true) ↔
          ∃ p ∈ ps', procQualifiesParallel p) ∧
        ((∀ p ∈ ps', ¬ procQualifiesParallel p) →
          (∀ p ∈ ps', ¬ procHasDw p) → docField v "flags" = none)) := by
  constructor
  · exact derive_flags_parallelism ps
  · intro h
    obtain ⟨ps', es, st1, ehv, st2, srcv, hp, heh, hsrc, hst, hv⟩ :=
      parse_flow_ok elem lookup ns st v stF h
    have hflags : docField v "flags" =
        (match derive_flags ps' with
         | some fl => if jTruthy fl then some fl else none
         | none => none) := by
      rw [hv, docField_obj]
      exact flow_fields_flags elem lookup ps' es srcv ehv
    refine ⟨ps', ?_, ?_, ?_⟩
    · rw [hv, docField_obj]
      exact flow_fields_processors elem lookup ps' es srcv ehv
    · rw [hflags]
      constructor
      · rintro ⟨fl, hfl, hpar⟩
        cases hd : derive_flags ps' with
        | none => rw [hd] at hfl; exact Option.noConfusion hfl
        | some flv =>
            simp only [hd, derive_flags_truthy ps' flv hd, if_true] at hfl
            refine (derive_flags_parallelism ps').mp ⟨fl, ?_, hpar⟩
            rw [hd, Option.some.inj hfl]
      · intro hq
        obtain ⟨fl, hfl, hpar⟩ := (derive_flags_parallelism ps').mpr hq
        refine ⟨fl, ?_, hpar⟩
        rw [hfl]
        simp [derive_flags_truthy ps' (JVal.obj fl) hfl]
    · intro hnq hnd
      rw [hflags]
      have : deriveFlagsGo ps' [] = [] := deriveFlagsGo_empty ps' [] hnq hnd
      unfold derive_flags
      rw [this]
      simp

/-- A flow whose single processor carries `maxConcurrency="4"` (used by
the C10 witness). -/
def c10FlowElem : Elem :=
  el (coreTag "flow") [("name", "pf")]
    [el (coreTag "vm-publish") [("maxConcurrency", "4")] []]

/-- The run of `parse_flow` on `c10FlowElem` (used by the C10 witness). -/
def c10FlowRun : JVal × List String :=
  match parse_flow c10FlowElem ⟨[], []⟩ routerNs [] with
  | .ok r => r
  | .error _ => (JVal.null, [])

/-- C10 witness at a concrete flow carrying `maxConcurrency="4"`. -/
theorem c10_parallelism_flag_witness :
    ∃ ps', docField c10FlowRun.1 "processors" = some (JVal.arr ps') ∧
      ((∃ fl, docField c10FlowRun.1 "flags" = some (JVal.obj fl) ∧
          (dictGet fl "parallelism").isSome = true) ↔
        ∃ p ∈ ps', procQualifiesParallel p) ∧
      ((∀ p ∈ ps', ¬ procQualifiesParallel p) →
        (∀ p ∈ ps', ¬ procHasDw p) → docField c10FlowRun.1 "flags" = none) :=
  (c10_parallelism_flag [] c10FlowElem ⟨[], []⟩ routerNs [] c10FlowRun.2
    c10FlowRun.1).2 (by rfl)

/-- Recognized on-error children of an `error-handler` element. -/
def isOnErrorChild (c : Elem) : Bool :=
  decide (local_name c.tag = "on-error-continue") ||
  decide (local_name c.tag = "on-error-propagate")

/-- A `flow-ref` element carrying a truthy `name` attribute. -/
def isNamedFlowRef (c : Elem) : Bool :=
  decide (local_name c.tag = "flow-ref") && truthy (dictGet c.attrib "name")

theorem firstFlowRefTarget_eq_find (lookup : NodeLookup) :
    ∀ (l : List Elem) (st : List String),
      firstFlowRefTarget lookup l st =
        match l.find? isNamedFlowRef with
        | some fr =>
            .ok (some (resolveId lookup ((dictGet fr.attrib "name").getD "")),
              st ++ resolveNotes lookup ((dictGet fr.attrib "name").getD ""))
        | none => .ok (none, st) := by
  intro l
  induction l with
  | nil => intro st; rfl
  | cons candidate rest ih =>
      intro st
      by_cases h1 : local_name candidate.tag = "flow-ref"
      · cases hn : dictGet candidate.attrib "name" with
        | some n =>
            by_cases hne : n = ""
            · have hpred : isNamedFlowRef candidate = false := by
                simp [isNamedFlowRef, h1, hn, truthy, hne]
              simp only [List.find?_cons, hpred]
              rw [← ih st]
              simp [firstFlowRefTarget, h1, hn, hne]
            · have hpred : isNamedFlowRef candidate = true := by
                simp [isNamedFlowRef, h1, hn, truthy, hne]
              simp only [List.find?_cons, hpred]
              simp [firstFlowRefTarget, h1, hn, hne, pm_bind_apply,
                resolve_run, pm_pure_apply]
        | none =>
            have hpred : isNamedFlowRef candidate = false := by
              simp [isNamedFlowRef, h1, hn, truthy]
            simp only [List.find?_cons, hpred]
            rw [← ih st]
            simp [firstFlowRefTarget, h1, hn]
      · have hpred : isNamedFlowRef candidate = false := by
          simp [isNamedFlowRef, h1]
        simp only [List.find?_cons, hpred]
        rw [← ih st]
        simp [firstFlowRefTarget, h1]

theorem on_error_entry_fields_type (c : Elem) (tgt : Option String) :
    dictGet (on_error_entry_fields c tgt) "type" =
      some (JVal.s (local_name c.tag)) := by
  simp only [on_error_entry_fields]
  repeat' split
  all_goals simp [dictGet_append, dictGet_cons, dictGet_nil]

theorem on_error_entry_fields_when (c : Elem) (tgt : Option String) :
    dictGet (on_error_entry_fields c tgt) "when" =
      (match pyOr (dictGet c.attrib "when") (dictGet c.attrib "type") with
       | some w => if w ≠ "" then some (JVal.s w) else none
       | none => none) := by
  simp only [on_error_entry_fields]
  repeat' split
  all_goals simp_all [dictGet_append, dictGet_cons, dictGet_nil]

theorem on_error_entry_fields_target (c : Elem) (tgt : Option String) :
    dictGet (on_error_entry_fields c tgt) "target" = tgt.map JVal.s := by
  simp only [on_error_entry_fields]
  repeat' split
  all_goals simp [dictGet_append, dictGet_cons, dictGet_nil]

theorem onErrorEntriesGo_run (lookup : NodeLookup) :
    ∀ (l : List Elem) (st : List String),
      ∃ entries st', onErrorEntriesGo lookup l st = .ok (entries, st') ∧
        List.Forall₂ (fun c entry => ∃ tgt st1 st2,
            firstFlowRefTarget lookup c.iterAll st1 = .ok (tgt, st2) ∧
            entry = JVal.obj (on_error_entry_fields c tgt))
          (l.filter isOnErrorChild) entries := by
  intro l
  induction l with
  | nil => intro st; exact ⟨[], st, rfl, by simp⟩
  | cons child rest ih =>
      intro st
      by_cases hc : local_name child.tag = "on-error-continue" ∨
          local_name child.tag = "on-error-propagate"
      · have hcb : isOnErrorChild child = true := by
          simp [isOnErrorChild]
          tauto
        obtain ⟨tgt, st1, hft⟩ := firstFlowRefTarget_total lookup child.iterAll st
        obtain ⟨entries, st2, hrest, hfa⟩ := ih st1
        refine ⟨JVal.obj (on_error_entry_fields child tgt) :: entries, st2, ?_, ?_⟩
        · simp [onErrorEntriesGo, hc, pm_bind_apply, parse_on_error_entry,
            hft, pm_pure_apply, hrest]
        · simp only [List.filter_cons, hcb, if_true]
          exact List.Forall₂.cons ⟨tgt, st, st1, hft, rfl⟩ hfa
      · have hcb : isOnErrorChild child = false := by
          simp [isOnErrorChild]
          tauto
        obtain ⟨entries, st2, hrest, hfa⟩ := ih st
        refine ⟨entries, st2, ?_, ?_⟩
        · simpa [onErrorEntriesGo, hc] using hrest
        · simpa [List.filter_cons, hcb] using hfa

theorem onErrorEntriesGo_length (lookup : NodeLookup) (l : List Elem)
    (st : List String) (entries : List JVal) (st' : List String)
    (h : onErrorEntriesGo lookup l st = .ok (entries, st')) :
    entries.length = (l.filter isOnErrorChild).length := by
  obtain ⟨entries2, st2, hrun, hfa⟩ := onErrorEntriesGo_run lookup l st
  rw [hrun] at h
  simp only [Except.ok.injEq, Prod.mk.injEq] at h
  rw [← h.1]
  exact hfa.length_eq.symm

theorem parse_error_handler_run (elem : Elem) (lookup : NodeLookup)
    (ns : List (String × String)) (st : List String) :
    ∃ entries st', onErrorEntriesGo lookup elem.children st = .ok (entries, st') ∧
      parse_error_handler elem lookup ns st =
        .ok ((if entries = [] then none
          else some (JVal.obj
            [("onError", JVal.arr entries), ("default", JVal.s "none")])), st') := by
  obtain ⟨entries, st', hrun, _⟩ := onErrorEntriesGo_run lookup elem.children st
  refine ⟨entries, st', hrun, ?_⟩
  by_cases he : entries = []
  · simp [parse_error_handler, pm_bind_apply, hrun, he, pm_pure_apply]
  · simp [parse_error_handler, pm_bind_apply, hrun, he, pm_pure_apply]

theorem flow_fields_errorHandler (elem : Elem) (lookup : NodeLookup)
    (ps es : List JVal) (srcv ehv : Option JVal) :
    dictGet (flow_fields elem lookup ps es srcv ehv) "errorHandler" =
      (match ehv with
       | some eh => if jTruthy eh then some eh else none
       | none => none) := by
  simp only [flow_fields]
  repeat' split
  all_goals simp_all [dictGet_append, dictGet_cons, dictGet_nil]

theorem subflow_fields_errorHandler (elem : Elem) (lookup : NodeLookup)
    (ps : List JVal) (ehv : Option JVal) :
    dictGet (subflow_fields elem lookup ps ehv) "errorHandler" =
      (match ehv with
       | some eh => if jTruthy eh then some eh else none
       | none => none) := by
  simp only [subflow_fields]
  repeat' split
  all_goals simp_all [dictGet_append, dictGet_cons, dictGet_nil]

/-- C6: error-handler handling. (a) `parse_error_handler` never fails: it runs
the recognized-children loop, producing exactly one entry per
`on-error-continue`/`on-error-propagate` direct child (others ignored), and
yields `none` when no child is recognized, otherwise the
`onError`/`default` dictionary. (b) Each entry resolves its target from the
first `flow-ref` with a truthy `name` found by recursive descent (`iter`)
through the on-error child, omitted when none exists. (c) The entry's `type`
is the child's local tag name, its `when` comes from the `when` attribute
with the `type` attribute as fallback (attached only when truthy), and its
`target` field is exactly the resolved target. (d)/(e) At flow and subflow
level only the first `error-handler` direct child is consulted, and the
`errorHandler` key is attached iff that child has at least one recognized
on-error child. -/
theorem c6_error_handler (lookup : NodeLookup) (ns : List (String × String)) :
    (∀ (eh : Elem) (st : List String),
      ∃ entries st2,
        onErrorEntriesGo lookup eh.children st = .ok (entries, st2) ∧
        entries.length = (eh.children.filter isOnErrorChild).length ∧
        parse_error_handler eh lookup ns st =
          .ok ((if entries = [] then none
            else some (JVal.obj
              [("onError", JVal.arr entries),
               ("default", JVal.s "none")])), st2)) ∧
    (∀ (c : Elem) (st : List String),
      parse_on_error_entry c lookup st =
        match c.iterAll.find? isNamedFlowRef with
        | some fr =>
            .ok (JVal.obj (on_error_entry_fields c
                (some (resolveId lookup ((dictGet fr.attrib "name").getD "")))),
              st ++ resolveNotes lookup ((dictGet fr.attrib "name").getD ""))
        | none => .ok (JVal.obj (on_error_entry_fields c none), st)) ∧
    (∀ (c : Elem) (tgt : Option String),
      dictGet (on_error_entry_fields c tgt) "type" =
          some (JVal.s (local_name c.tag)) ∧
      dictGet (on_error_entry_fields c tgt) "when" =
        (match pyOr (dictGet c.attrib "when") (dictGet c.attrib "type") with
         | some w => if w ≠ "" then some (JVal.s w) else none
         | none => none) ∧
      dictGet (on_error_entry_fields c tgt) "target" = tgt.map JVal.s) ∧
    (∀ (elem : Elem) (st stF : List String) (v : JVal),
      parse_flow elem lookup ns st = .ok (v, stF) →
      (elem.children.find? (fun c => local_name c.tag = "error-handler") =
          none → docField v "errorHandler" = none) ∧
      (∀ eh, elem.children.find?
            (fun c => local_name c.tag = "error-handler") = some eh →
        (eh.children.filter isOnErrorChild = [] →
            docField v "errorHandler" = none) ∧
        (eh.children.filter isOnErrorChild ≠ [] →
          ∃ st1 entries st2,
            onErrorEntriesGo lookup eh.children st1 = .ok (entries, st2) ∧
            docField v "errorHandler" =
              some (JVal.obj
                [("onError", JVal.arr entries),
                 ("default", JVal.s "none")])))) ∧
    (∀ (elem : Elem) (st stF : List String) (v : JVal),
      parse_subflow elem lookup ns st = .ok (v, stF) →
      (elem.children.find? (fun c => local_name c.tag = "error-handler") =
          none → docField v "errorHandler" = none) ∧
      (∀ eh, elem.children.find?
            (fun c => local_name c.tag = "error-handler") = some eh →
        (eh.children.filter isOnErrorChild = [] →
            docField v "errorHandler" = none) ∧
        (eh.children.filter isOnErrorChild ≠ [] →
          ∃ st1 entries st2,
            onErrorEntriesGo lookup eh.children st1 = .ok (entries, st2) ∧
            docField v "errorHandler" =
              some (JVal.obj
                [("onError", JVal.arr entries),
                 ("default", JVal.s "none")])))) := by
  refine ⟨?_, ?_, ?_, ?_, ?_⟩
  · intro eh st
    obtain ⟨entries, st2, hego, hpe⟩ := parse_error_handler_run eh lookup ns st
    exact ⟨entries, st2, hego,
      onErrorEntriesGo_length lookup eh.children st entries st2 hego, hpe⟩
  · intro c st
    cases hf : c.iterAll.find? isNamedFlowRef with
    | none =>
        simp [parse_on_error_entry, pm_bind_apply,
          firstFlowRefTarget_eq_find, hf, pm_pure_apply]
    | some fr =>
        simp [parse_on_error_entry, pm_bind_apply,
          firstFlowRefTarget_eq_find, hf, pm_pure_apply]
  · intro c tgt
    exact ⟨on_error_entry_fields_type c tgt,
      on_error_entry_fields_when c tgt,
      on_error_entry_fields_target c tgt⟩
  · intro elem st stF v h
    obtain ⟨ps, es, st1, ehv, st2, srcv, hp, heh, hsrc, hst, hv⟩ :=
      parse_flow_ok elem lookup ns st v stF h
    constructor
    · intro hfind
      simp only [error_handler_step, hfind, pm_pure_apply,
        Except.ok.injEq, Prod.mk.injEq] at heh
      rw [hv, docField_obj, flow_fields_errorHandler, ← heh.1]
    · intro eh hfind
      simp only [error_handler_step, hfind] at heh
      obtain ⟨entries, st2x, hego, hpe⟩ :=
        parse_error_handler_run eh lookup ns st1
      rw [hpe] at heh
      simp only [Except.ok.injEq, Prod.mk.injEq] at heh
      have hlen := onErrorEntriesGo_length lookup eh.children st1 entries st2x hego
      constructor
      · intro hempty
        have he : entries = [] := by
          have : entries.length = 0 := by rw [hlen, hempty]; rfl
          exact List.length_eq_zero.mp this
        rw [hv, docField_obj, flow_fields_errorHandler, ← heh.1]
        simp [he]
      · intro hne
        have he : entries ≠ [] := by
          intro hcontra
          apply hne
          have : (eh.children.filter isOnErrorChild).length = 0 := by
            rw [← hlen, hcontra]; rfl
          exact List.length_eq_zero.mp this
        refine ⟨st1, entries, st2x, hego, ?_⟩
        rw [hv, docField_obj, flow_fields_errorHandler, ← heh.1]
        simp [he, jTruthy]
  · intro elem st stF v h
    obtain ⟨ps, es, st1, ehv, st2, hp, heh, hst, hv⟩ :=
      parse_subflow_ok elem lookup ns st v stF h
    constructor
    · intro hfind
      simp only [error_handler_step, hfind, pm_pure_apply,
        Except.ok.injEq, Prod.mk.injEq] at heh
      rw [hv, docField_obj, subflow_fields_errorHandler, ← heh.1]
    · intro eh hfind
      simp only [error_handler_step, hfind] at heh
      obtain ⟨entries, st2x, hego, hpe⟩ :=
        parse_error_handler_run eh lookup ns st1
      rw [hpe] at heh
      simp only [Except.ok.injEq, Prod.mk.injEq] at heh
      have hlen := onErrorEntriesGo_length lookup eh.children st1 entries st2x hego
      constructor
      · intro hempty
        have he : entries = [] := by
          have : entries.length = 0 := by rw [hlen, hempty]; rfl
          exact List.length_eq_zero.mp this
        rw [hv, docField_obj, subflow_fields_errorHandler, ← heh.1]
        simp [he]
      · intro hne
        have he : entries ≠ [] := by
          intro hcontra
          apply hne
          have : (eh.children.filter isOnErrorChild).length = 0 := by
            rw [← hlen, hcontra]; rfl
          exact List.length_eq_zero.mp this
        refine ⟨st1, entries, st2x, hego, ?_⟩
        rw [hv, docField_obj, subflow_fields_errorHandler, ← heh.1]
        simp [he, jTruthy]

/-- A lookup mapping `helperSubflow` to its subflow id (C6 witness). -/
def c6Lookup : NodeLookup := ⟨[], [("helperSubflow", "subflow://helperSubflow")]⟩

/-- The recognized on-error child of the C6 witness flow. -/
def c6OnErrElem : Elem :=
  el (coreTag "on-error-continue") [("type", "ANY")]
    [el (coreTag "flow-ref") [("name", "helperSubflow")] []]

/-- The error-handler element of the C6 witness flow; its second child is not
a recognized on-error kind. -/
def c6EhElem : Elem :=
  el (coreTag "error-handler") [] [c6OnErrElem, el (coreTag "comment") [] []]

/-- A flow with a logger and an error handler (C6 witness). -/
def c6FlowElem : Elem :=
  el (coreTag "flow") [("name", "f")]
    [el (coreTag "logger") [] [], c6EhElem]

/-- The run of `parse_flow` on `c6FlowElem` (used by the C6 witness). -/
def c6FlowRun : JVal × List String :=
  match parse_flow c6FlowElem c6Lookup routerNs [] with
  | .ok r => r
  | .error _ => (JVal.null, [])

/-- C6 witness: a concrete flow whose error handler has one recognized child
gets an `errorHandler` key built from the recognized-children loop. -/
theorem c6_error_handler_witness :
    ∃ st1 entries st2,
      onErrorEntriesGo c6Lookup c6EhElem.children st1 = .ok (entries, st2) ∧
      docField c6FlowRun.1 "errorHandler" =
        some (JVal.obj
          [("onError", JVal.arr entries), ("default", JVal.s "none")]) :=
  (((c6_error_handler c6Lookup routerNs).2.2.2.1
      c6FlowElem [] c6FlowRun.2 c6FlowRun.1 (by rfl)).2 c6EhElem (by rfl)).2
    (by rw [show c6EhElem.children.filter isOnErrorChild = [c6OnErrElem]
        from rfl]
        exact List.cons_ne_nil _ _)

/-- A branch descriptor carrying a null `when` condition and string-only
targets: the one dictionary shape in which `parse_mule_xml` output stores a
null value. -/
def isWhenNullBranch : JVal → Bool
  | .obj [("when", JVal.null), ("targets", JVal.arr ts)] =>
      ts.all (fun t => match t with | .s _ => true | _ => false)
  | _ => false

mutual

/-- No null value anywhere in a JSON value, except inside an array element
that is a null-`when` branch descriptor. -/
def nullOnlyWhen : JVal → Bool
  | .null => false
  | .s _ => true
  | .i _ => true
  | .b _ => true
  | .arr l => nullOnlyWhenList l
  | .obj fs => nullOnlyWhenFields fs

/-- List version of `nullOnlyWhen`; each element may also be a null-`when`
branch descriptor. -/
def nullOnlyWhenList : List JVal → Bool
  | [] => true
  | v :: rest => (isWhenNullBranch v || nullOnlyWhen v) && nullOnlyWhenList rest

/-- Field-list version of `nullOnlyWhen`: every value is null-free. -/
def nullOnlyWhenFields : List (String × JVal) → Bool
  | [] => true
  | p :: rest => nullOnlyWhen p.2 && nullOnlyWhenFields rest

end

theorem nullOnlyWhenList_append (a b : List JVal) :
    nullOnlyWhenList (a ++ b) = (nullOnlyWhenList a && nullOnlyWhenList b) := by
  induction a with
  | nil => simp [nullOnlyWhenList]
  | cons v rest ih => simp [nullOnlyWhenList, ih, Bool.and_assoc]

theorem nullOnlyWhenFields_append (a b : List (String × JVal)) :
    nullOnlyWhenFields (a ++ b) =
      (nullOnlyWhenFields a && nullOnlyWhenFields b) := by
  induction a with
  | nil => simp [nullOnlyWhenFields]
  | cons p rest ih => simp [nullOnlyWhenFields, ih, Bool.and_assoc]

theorem nullOnlyWhenList_map_s (l : List String) :
    nullOnlyWhenList (l.map JVal.s) = true := by
  induction l with
  | nil => rfl
  | cons v rest ih => simp [nullOnlyWhenList, nullOnlyWhen, ih]

theorem nullOnlyWhenFields_map_s (l : List (String × String)) :
    nullOnlyWhenFields (l.map (fun kv => (kv.1, JVal.s kv.2))) = true := by
  induction l with
  | nil => rfl
  | cons v rest ih => simp [nullOnlyWhenFields, nullOnlyWhen, ih]

theorem nullOnlyWhenFields_subst (d : List (String × JVal)) (k : String)
    (v : JVal) (hd : nullOnlyWhenFields d = true) (hv : nullOnlyWhen v = true) :
    nullOnlyWhenFields (d.map (fun p => if p.1 = k then (k, v) else p)) =
      true := by
  induction d with
  | nil => rfl
  | cons p rest ih =>
      simp only [nullOnlyWhenFields, Bool.and_eq_true] at hd
      simp only [List.map_cons, nullOnlyWhenFields, Bool.and_eq_true]
      refine ⟨?_, ih hd.2⟩
      split
      · exact hv
      · exact hd.1

theorem nullOnlyWhenFields_dictInsert (d : List (String × JVal)) (k : String)
    (v : JVal) (hd : nullOnlyWhenFields d = true) (hv : nullOnlyWhen v = true) :
    nullOnlyWhenFields (dictInsert d k v) = true := by
  rw [dictInsert]
  split
  · exact nullOnlyWhenFields_subst d k v hd hv
  · rw [nullOnlyWhenFields_append, hd, Bool.true_and]
    simp [nullOnlyWhenFields, hv]

theorem whenBranchOf_nullOk (w : Elem) (ts : List String) :
    (isWhenNullBranch (whenBranchOf w ts) ||
      nullOnlyWhen (whenBranchOf w ts)) = true := by
  rw [whenBranchOf]
  cases hc : pyOr (dictGet w.attrib "expression") (dictGet w.attrib "condition") with
  | none =>
      apply Bool.or_eq_true_iff.mpr
      left
      simp only [optStr, isWhenNullBranch]
      induction ts with
      | nil => rfl
      | cons t rest _ => simp
  | some c =>
      apply Bool.or_eq_true_iff.mpr
      right
      simp [optStr, nullOnlyWhen, nullOnlyWhenFields, nullOnlyWhenList_map_s]

theorem otherwiseBranchOf_nullOk (ts : List String) :
    nullOnlyWhen (otherwiseBranchOf ts) = true := by
  simp [otherwiseBranchOf, nullOnlyWhen, nullOnlyWhenFields,
    nullOnlyWhenList_map_s]

theorem edgeObj_nullOk (t v : String) :
    nullOnlyWhen (JVal.obj [("to", JVal.s t), ("via", JVal.s v)]) = true := by
  simp [nullOnlyWhen, nullOnlyWhenFields]

theorem edgeList_nullOk (ts : List String) (v : String) :
    nullOnlyWhenList (ts.map (fun t =>
      JVal.obj [("to", JVal.s t), ("via", JVal.s v)])) = true := by
  induction ts with
  | nil => rfl
  | cons t rest ih =>
      simp [nullOnlyWhenList, nullOnlyWhen, nullOnlyWhenFields, ih]

theorem nullOnlyWhenList_of_forall (l : List JVal)
    (h : ∀ v ∈ l, nullOnlyWhen v = true) : nullOnlyWhenList l = true := by
  induction l with
  | nil => rfl
  | cons v rest ih =>
      simp only [nullOnlyWhenList, Bool.and_eq_true]
      exact ⟨Bool.or_eq_true_iff.mpr (Or.inr (h v (List.mem_cons_self v rest))),
        ih (fun w hw => h w (List.mem_cons_of_mem v hw))⟩

theorem branchesGo_nullOk (lookup : NodeLookup) :
    ∀ (l : List Elem) (st : List String) (bs es : List JVal) (st' : List String),
      branchesGo lookup l st = .ok ((bs, es), st') →
      nullOnlyWhenList bs = true ∧ nullOnlyWhenList es = true := by
  intro l
  induction l with
  | nil =>
      intro st bs es st' h
      simp only [branchesGo, pm_pure_apply, Except.ok.injEq, Prod.mk.injEq] at h
      rw [← h.1.1, ← h.1.2]
      exact ⟨rfl, rfl⟩
  | cons child rest ih =>
      intro st bs es st' h
      by_cases hw : local_name child.tag = "when"
      · cases hts : collect_branch_targets child lookup st with
        | error e =>
            rw [show branchesGo lookup (child :: rest) st = .error e by
              simp [branchesGo, hw, pm_bind_apply, hts]] at h
            exact Except.noConfusion h
        | ok tsr =>
            obtain ⟨ts, st1⟩ := tsr
            cases hrest : branchesGo lookup rest st1 with
            | error e =>
                rw [show branchesGo lookup (child :: rest) st = .error e by
                  simp [branchesGo, hw, pm_bind_apply, hts, hrest]] at h
                exact Except.noConfusion h
            | ok r2 =>
                obtain ⟨⟨bs2, es2⟩, st2⟩ := r2
                rw [show branchesGo lookup (child :: rest) st =
                    .ok ((whenBranchOf child ts :: bs2,
                      ts.map (fun t => JVal.obj
                        [("to", JVal.s t), ("via", JVal.s "choice.when")]) ++ es2),
                      st2) by
                  simp [branchesGo, hw, pm_bind_apply, hts, hrest, pm_pure_apply,
                    whenBranchOf]] at h
                simp only [Except.ok.injEq, Prod.mk.injEq] at h
                obtain ⟨h1, h2⟩ := ih st1 bs2 es2 st2 hrest
                rw [← h.1.1, ← h.1.2]
                constructor
                · simp only [nullOnlyWhenList, Bool.and_eq_true]
                  exact ⟨whenBranchOf_nullOk child ts, h1⟩
                · rw [nullOnlyWhenList_append, edgeList_nullOk, h2]
                  rfl
      · by_cases ho : local_name child.tag = "otherwise"
        · cases hts : collect_branch_targets child lookup st with
          | error e =>
              rw [show branchesGo lookup (child :: rest) st = .error e by
                simp [branchesGo, hw, ho, pm_bind_apply, hts]] at h
              exact Except.noConfusion h
          | ok tsr =>
              obtain ⟨ts, st1⟩ := tsr
              cases hrest : branchesGo lookup rest st1 with
              | error e =>
                  rw [show branchesGo lookup (child :: rest) st = .error e by
                    simp [branchesGo, hw, ho, pm_bind_apply, hts, hrest]] at h
                  exact Except.noConfusion h
              | ok r2 =>
                  obtain ⟨⟨bs2, es2⟩, st2⟩ := r2
                  rw [show branchesGo lookup (child :: rest) st =
                      .ok ((otherwiseBranchOf ts :: bs2,
                        ts.map (fun t => JVal.obj
                          [("to", JVal.s t),
                           ("via", JVal.s "choice.otherwise")]) ++ es2),
                        st2) by
                    simp [branchesGo, hw, ho, pm_bind_apply, hts, hrest,
                      pm_pure_apply, otherwiseBranchOf]] at h
                  simp only [Except.ok.injEq, Prod.mk.injEq] at h
                  obtain ⟨h1, h2⟩ := ih st1 bs2 es2 st2 hrest
                  rw [← h.1.1, ← h.1.2]
                  constructor
                  · simp only [nullOnlyWhenList, Bool.and_eq_true]
                    refine ⟨Bool.or_eq_true_iff.mpr
                      (Or.inr (otherwiseBranchOf_nullOk ts)), h1⟩
                  · rw [nullOnlyWhenList_append, edgeList_nullOk, h2]
                    rfl
        · simp only [branchesGo, hw, ho, if_false] at h
          exact ih st bs es st' h

theorem extract_branches_nullOk (elem : Elem) (lookup : NodeLookup)
    (nm : List (String × String)) (st : List String) (bs es : List JVal)
    (st' : List String)
    (h : extract_branches elem lookup nm st = .ok ((bs, es), st')) :
    nullOnlyWhenList bs = true ∧ nullOnlyWhenList es = true := by
  rw [extract_branches] at h
  split at h
  · simp only [pm_pure_apply, Except.ok.injEq, Prod.mk.injEq] at h
    rw [← h.1.1, ← h.1.2]
    exact ⟨rfl, rfl⟩
  · exact branchesGo_nullOk lookup elem.children st bs es st' h

theorem extract_dataweave_nullOk (elem : Elem)
    (ns : List (String × String)) (dw : JVal)
    (h : extract_dataweave elem ns = .ok (some dw)) :
    nullOnlyWhen dw = true := by
  rw [extract_dataweave] at h
  cases hq : qualified_name elem.tag ns with
  | error e =>
      rw [hq] at h
      exact Except.noConfusion h
  | ok q =>
      rw [hq] at h
      simp only [except_bind_ok] at h
      split at h
      · simp [pure, Except.pure] at h
      · split at h
        · simp [pure, Except.pure] at h
        · simp only [pure, Except.pure, Except.ok.injEq, Option.some.injEq] at h
          rw [← h]
          repeat' split
          all_goals simp [nullOnlyWhen, nullOnlyWhenFields,
            nullOnlyWhenFields_append]

theorem extract_transaction_nullOk (attributes : List (String × String))
    (t : JVal) (h : extract_transaction attributes = some t) :
    nullOnlyWhen t = true := by
  rw [extract_transaction] at h
  simp only [] at h
  repeat' split at h
  any_goals exact Option.noConfusion h
  all_goals rw [← Option.some.inj h]
  all_goals simp [nullOnlyWhen, nullOnlyWhenFields, nullOnlyWhenFields_append]

theorem sourceKeysGo_nullOk (first : Elem) :
    ∀ (keys : List String) (source out : List (String × JVal)),
      nullOnlyWhenFields source = true →
      sourceKeysGo first keys source = .ok out →
      nullOnlyWhenFields out = true := by
  intro keys
  induction keys with
  | nil =>
      intro source out hs h
      simp only [sourceKeysGo, Except.ok.injEq] at h
      rw [← h]
      exact hs
  | cons key rest ih =>
      intro source out hs h
      rw [sourceKeysGo] at h
      simp only [] at h
      repeat' split at h
      any_goals exact Except.noConfusion h
      all_goals refine ih _ out ?_ h
      all_goals
        simp [nullOnlyWhenFields_append, hs, nullOnlyWhenFields, nullOnlyWhen]

theorem nullOk_transaction_step (att : List (String × String))
    (s : List (String × JVal)) (hs : nullOnlyWhenFields s = true) :
    nullOnlyWhenFields
      (match extract_transaction att with
       | some t => if jTruthy t then s ++ [("transaction", t)] else s
       | none => s) = true := by
  cases het : extract_transaction att with
  | none => exact hs
  | some t =>
      simp only []
      split
      · rw [nullOnlyWhenFields_append, hs, Bool.true_and]
        simp [nullOnlyWhenFields, extract_transaction_nullOk att t het]
      · exact hs

theorem nullOk_methods_step (att : List (String × String))
    (s : List (String × JVal)) (hs : nullOnlyWhenFields s = true) :
    nullOnlyWhenFields
      (match dictGet att "methods" with
       | some m =>
           if m ≠ "" then
             s ++ [("methods", JVal.arr
               ((((splitCharGo (Char.ofNat 44) m.toList []).map
                   (fun p => pyStrip (String.mk p))).filter
                 (fun piece => piece ≠ "")).map JVal.s))]
           else s
       | none => s) = true := by
  cases hm : dictGet att "methods" with
  | none => exact hs
  | some m =>
      simp only []
      split
      · rw [nullOnlyWhenFields_append, hs, Bool.true_and]
        simp [nullOnlyWhenFields, nullOnlyWhen, nullOnlyWhenList_map_s]
      · exact hs

theorem nullOk_path_step (att : List (String × String))
    (s : List (String × JVal)) (hs : nullOnlyWhenFields s = true) :
    nullOnlyWhenFields
      (match pyOr (dictGet att "path") (dictGet att "destination") with
       | some p =>
           if p ≠ "" ∧ dictGet s "path" = none then s ++ [("path", JVal.s p)]
           else s
       | none => s) = true := by
  cases hp : pyOr (dictGet att "path") (dictGet att "destination") with
  | none => exact hs
  | some p =>
      simp only []
      split
      · rw [nullOnlyWhenFields_append, hs, Bool.true_and]
        simp [nullOnlyWhenFields, nullOnlyWhen]
      · exact hs

theorem parse_source_nullOk (elem : Elem) (ns : List (String × String))
    (src : JVal) (h : parse_source elem ns = .ok (some src)) :
    nullOnlyWhen src = true := by
  rw [parse_source] at h
  split at h
  · simp [pure, Except.pure] at h
  · next first restc hch =>
      cases hq : qualified_name first.tag ns with
      | error e =>
          rw [hq] at h
          exact Except.noConfusion h
      | ok ty =>
          rw [hq] at h
          simp only [except_bind_ok] at h
          have hs1 : nullOnlyWhenFields
              (match dictGet first.attrib "config-ref" with
               | some c => if c ≠ "" then
                   [("type", JVal.s ty)] ++ [("configRef", JVal.s c)]
                 else [("type", JVal.s ty)]
               | none => [("type", JVal.s ty)]) = true := by
            repeat' split
            all_goals simp [nullOnlyWhenFields, nullOnlyWhen]
          cases hsk : sourceKeysGo first ["path", "queue", "cron", "responseTimeout"]
              (match dictGet first.attrib "config-ref" with
               | some c => if c ≠ "" then
                   [("type", JVal.s ty)] ++ [("configRef", JVal.s c)]
                 else [("type", JVal.s ty)]
               | none => [("type", JVal.s ty)]) with
          | error e =>
              rw [hsk] at h
              exact Except.noConfusion h
          | ok s2 =>
              rw [hsk] at h
              simp only [except_bind_ok, pure, Except.pure, Except.ok.injEq,
                Option.some.injEq] at h
              have hs2 : nullOnlyWhenFields s2 = true :=
                sourceKeysGo_nullOk first _ _ s2 hs1 hsk
              rw [← h]
              exact nullOk_path_step first.attrib _
                (nullOk_methods_step first.attrib _
                  (nullOk_transaction_step first.attrib s2 hs2))

theorem on_error_entry_fields_nullOk (child : Elem) (tgt : Option String) :
    nullOnlyWhenFields (on_error_entry_fields child tgt) = true := by
  simp only [on_error_entry_fields]
  repeat' split
  all_goals
    simp [nullOnlyWhenFields, nullOnlyWhen, nullOnlyWhenFields_append]

theorem onErrorEntriesGo_nullOk (lookup : NodeLookup) (l : List Elem)
    (st : List String) (entries : List JVal) (st' : List String)
    (h : onErrorEntriesGo lookup l st = .ok (entries, st')) :
    nullOnlyWhenList entries = true := by
  obtain ⟨entries2, st2, hrun, hfa⟩ := onErrorEntriesGo_run lookup l st
  rw [hrun] at h
  simp only [Except.ok.injEq, Prod.mk.injEq] at h
  rw [← h.1]
  apply nullOnlyWhenList_of_forall
  intro v hv
  obtain ⟨c, _, tgt, _, _, _, hveq⟩ := forall₂_mem_right hfa v hv
  rw [hveq]
  exact on_error_entry_fields_nullOk c tgt

theorem parse_error_handler_nullOk (elem : Elem) (lookup : NodeLookup)
    (ns : List (String × String)) (st : List String) (ehv : JVal)
    (st' : List String)
    (h : parse_error_handler elem lookup ns st = .ok (some ehv, st')) :
    nullOnlyWhen ehv = true := by
  obtain ⟨entries, st2, hego, hpe⟩ := parse_error_handler_run elem lookup ns st
  rw [hpe] at h
  simp only [Except.ok.injEq, Prod.mk.injEq] at h
  have hent := onErrorEntriesGo_nullOk lookup elem.children st entries st2 hego
  by_cases he : entries = []
  · rw [if_pos he] at h
    exact Option.noConfusion h.1
  · rw [if_neg he] at h
    rw [← Option.some.inj h.1]
    simp [nullOnlyWhen, nullOnlyWhenFields, hent]

theorem dwCheck_nullOk (processor : JVal) (flags : List (String × JVal))
    (hf : nullOnlyWhenFields flags = true) :
    nullOnlyWhenFields (dwCheck processor flags) = true := by
  cases processor with
  | obj fields =>
      rw [dwCheck]
      cases hdw : dictGet fields "dw" with
      | none => exact hf
      | some dw =>
          simp only []
          split
          · exact nullOnlyWhenFields_dictInsert flags "hasBlockingDW"
              (JVal.b true) hf rfl
          · exact hf
  | null => exact hf
  | s x => exact hf
  | i x => exact hf
  | b x => exact hf
  | arr l => exact hf

theorem deriveFlagsGo_nullOk :
    ∀ (processors : List JVal) (flags : List (String × JVal)),
      nullOnlyWhenFields flags = true →
      nullOnlyWhenFields (deriveFlagsGo processors flags) = true := by
  intro processors
  induction processors with
  | nil => intro flags hf; exact hf
  | cons p rest ih =>
      intro flags hf
      cases hmc : procMaxConc p with
      | none =>
          rw [deriveFlagsGo_cons_none p rest flags hmc]
          exact ih _ (dwCheck_nullOk p flags hf)
      | some v =>
          cases hpi : pythonInt v with
          | none =>
              rw [deriveFlagsGo_cons_badint p rest flags v hmc hpi]
              exact ih flags hf
          | some value =>
              rw [deriveFlagsGo_cons_int p rest flags v value hmc hpi]
              exact ih _ (dwCheck_nullOk p _ (by
                split
                · exact nullOnlyWhenFields_dictInsert flags "parallelism" _ hf rfl
                · exact hf))

theorem derive_flags_nullOk (processors : List JVal) (fl : JVal)
    (h : derive_flags processors = some fl) : nullOnlyWhen fl = true := by
  rw [derive_flags] at h
  split at h
  · exact Option.noConfusion h
  · rw [← Option.some.inj h]
    exact deriveFlagsGo_nullOk processors [] rfl

theorem processor_fields_nullOk (idx : Nat) (ty : String) (elem : Elem)
    (attributes : List (String × String)) (dw_info : Option JVal)
    (branches : List JVal)
    (hdw : ∀ dw, dw_info = some dw → nullOnlyWhen dw = true)
    (hbr : nullOnlyWhenList branches = true) :
    nullOnlyWhenFields
      (processor_fields idx ty elem attributes dw_info branches) = true := by
  simp only [processor_fields]
  repeat' split
  all_goals
    simp_all [nullOnlyWhenFields, nullOnlyWhen, nullOnlyWhenFields_append,
      nullOnlyWhenFields_map_s]

theorem parse_processor_nullOk (idx : Nat) (elem : Elem) (lookup : NodeLookup)
    (ns : List (String × String)) (st : List String)
    (res : ProcessorParseResult) (st' : List String)
    (h : parse_processor idx elem lookup ns st = .ok (res, st')) :
    nullOnlyWhen res.processor = true ∧ nullOnlyWhenList res.edges = true := by
  cases hq : qualified_name elem.tag ns with
  | error e =>
      rw [show parse_processor idx elem lookup ns st = .error e by
        simp only [parse_processor, pm_bind_apply, liftE_apply, hq]] at h
      exact Except.noConfusion h
  | ok ty =>
      cases hb : build_attributes elem.attrib ns ["config-ref"] with
      | error e =>
          rw [show parse_processor idx elem lookup ns st = .error e by
            simp only [parse_processor, pm_bind_apply, liftE_apply, hq, hb]] at h
          exact Except.noConfusion h
      | ok attrs =>
          cases hdw : extract_dataweave elem ns with
          | error e =>
              rw [show parse_processor idx elem lookup ns st = .error e by
                simp only [parse_processor, pm_bind_apply, liftE_apply, hq, hb,
                  hdw]] at h
              exact Except.noConfusion h
          | ok dwv =>
              cases hbr : extract_branches elem lookup ns st with
              | error e =>
                  rw [show parse_processor idx elem lookup ns st = .error e by
                    simp only [parse_processor, pm_bind_apply, liftE_apply, hq,
                      hb, hdw, hbr]] at h
                  exact Except.noConfusion h
              | ok bres =>
                  obtain ⟨⟨branches, edges0⟩, st1⟩ := bres
                  obtain ⟨hbs, hes⟩ :=
                    extract_branches_nullOk elem lookup ns st branches edges0
                      st1 hbr
                  have hproc : nullOnlyWhenFields
                      (processor_fields idx ty elem attrs dwv branches) = true :=
                    processor_fields_nullOk idx ty elem attrs dwv branches
                      (fun dw hdweq => extract_dataweave_nullOk elem ns dw
                        (hdweq ▸ hdw)) hbs
                  by_cases hlf : local_name elem.tag = "flow-ref"
                  · cases hn : dictGet elem.attrib "name" with
                    | some n =>
                        by_cases hne : n = ""
                        · simp [parse_processor, pm_bind_apply, liftE_apply,
                            hq, hb, hdw, hbr, hlf, hn, hne, pm_pure_apply] at h
                          rw [← h.1]
                          exact ⟨hproc, hes⟩
                        · simp [parse_processor, pm_bind_apply, liftE_apply,
                            hq, hb, hdw, hbr, hlf, hn, hne, pm_pure_apply,
                            resolve_run] at h
                          rw [← h.1]
                          refine ⟨hproc, ?_⟩
                          rw [nullOnlyWhenList_append, hes, Bool.true_and]
                          simp [nullOnlyWhenList, nullOnlyWhen, nullOnlyWhenFields]
                    | none =>
                        simp [parse_processor, pm_bind_apply, liftE_apply,
                          hq, hb, hdw, hbr, hlf, hn, pm_pure_apply] at h
                        rw [← h.1]
                        exact ⟨hproc, hes⟩
                  · simp [parse_processor, pm_bind_apply, liftE_apply,
                      hq, hb, hdw, hbr, hlf, pm_pure_apply] at h
                    rw [← h.1]
                    exact ⟨hproc, hes⟩

theorem processorsGo_nullOk (lookup : NodeLookup)
    (ns : List (String × String)) :
    ∀ (l : List Elem) (idx : Nat) (st : List String) (ps es : List JVal)
      (st' : List String),
      processorsGo lookup ns idx l st = .ok ((ps, es), st') →
      nullOnlyWhenList ps = true ∧ nullOnlyWhenList es = true := by
  intro l
  induction l with
  | nil =>
      intro idx st ps es st' h
      simp only [processorsGo, pm_pure_apply, Except.ok.injEq,
        Prod.mk.injEq] at h
      rw [← h.1.1, ← h.1.2]
      exact ⟨rfl, rfl⟩
  | cons child rest ih =>
      intro idx st ps es st' h
      cases hp : parse_processor idx child lookup ns st with
      | error e =>
          rw [show processorsGo lookup ns idx (child :: rest) st = .error e by
            simp only [processorsGo, pm_bind_apply, hp]] at h
          exact Except.noConfusion h
      | ok pres =>
          obtain ⟨res, st1⟩ := pres
          cases hrest : processorsGo lookup ns (idx + 1) rest st1 with
          | error e =>
              rw [show processorsGo lookup ns idx (child :: rest) st =
                  .error e by
                simp only [processorsGo, pm_bind_apply, hp, hrest]] at h
              exact Except.noConfusion h
          | ok rres =>
              obtain ⟨⟨ps2, es2⟩, st2⟩ := rres
              rw [show processorsGo lookup ns idx (child :: rest) st =
                  .ok ((res.processor :: ps2, res.edges ++ es2), st2) by
                simp only [processorsGo, pm_bind_apply, hp, hrest,
                  pm_pure_apply]] at h
              simp only [Except.ok.injEq, Prod.mk.injEq] at h
              obtain ⟨hproc, hedges⟩ :=
                parse_processor_nullOk idx child lookup ns st res st1 hp
              obtain ⟨hps2, hes2⟩ := ih (idx + 1) st1 ps2 es2 st2 hrest
              rw [← h.1.1, ← h.1.2]
              constructor
              · simp only [nullOnlyWhenList, Bool.and_eq_true]
                exact ⟨Bool.or_eq_true_iff.mpr (Or.inr hproc), hps2⟩
              · rw [nullOnlyWhenList_append, hedges, hes2]
                rfl

theorem error_handler_step_nullOk (elem : Elem) (lookup : NodeLookup)
    (ns : List (String × String)) (st : List String) (ehv : Option JVal)
    (st' : List String)
    (h : error_handler_step elem lookup ns st = .ok (ehv, st'))
    (e : JVal) (he : ehv = some e) : nullOnlyWhen e = true := by
  cases hfind : elem.children.find? (fun c => local_name c.tag = "error-handler") with
  | some eh =>
      simp only [error_handler_step, hfind] at h
      rw [he] at h
      exact parse_error_handler_nullOk eh lookup ns st e st' h
  | none =>
      simp only [error_handler_step, hfind] at h
      rw [he] at h
      simp only [pm_pure_apply, Except.ok.injEq, Prod.mk.injEq] at h
      exact Option.noConfusion h.1

theorem flow_fields_nullOk (elem : Elem) (lookup : NodeLookup)
    (ps es : List JVal) (srcv ehv : Option JVal)
    (hps : nullOnlyWhenList ps = true) (hes : nullOnlyWhenList es = true)
    (hsrc : ∀ s, srcv = some s → nullOnlyWhen s = true)
    (heh : ∀ e, ehv = some e → nullOnlyWhen e = true) :
    nullOnlyWhenFields (flow_fields elem lookup ps es srcv ehv) = true := by
  have hfl : ∀ fl, derive_flags ps = some fl → nullOnlyWhen fl = true :=
    derive_flags_nullOk ps
  simp only [flow_fields]
  repeat' split
  all_goals
    simp_all [nullOnlyWhenFields, nullOnlyWhen, nullOnlyWhenFields_append]

theorem subflow_fields_nullOk (elem : Elem) (lookup : NodeLookup)
    (ps : List JVal) (ehv : Option JVal)
    (hps : nullOnlyWhenList ps = true)
    (heh : ∀ e, ehv = some e → nullOnlyWhen e = true) :
    nullOnlyWhenFields (subflow_fields elem lookup ps ehv) = true := by
  simp only [subflow_fields]
  repeat' split
  all_goals
    simp_all [nullOnlyWhenFields, nullOnlyWhen, nullOnlyWhenFields_append]

theorem parse_flow_nullOk (elem : Elem) (lookup : NodeLookup)
    (ns : List (String × String)) (st : List String) (v : JVal)
    (st' : List String) (h : parse_flow elem lookup ns st = .ok (v, st')) :
    nullOnlyWhen v = true := by
  obtain ⟨ps, es, st1, ehv, st2, srcv, hp, heh, hsrc, hst, hv⟩ :=
    parse_flow_ok elem lookup ns st v st' h
  obtain ⟨hps, hes⟩ := processorsGo_nullOk lookup ns _ 0 st ps es st1 hp
  rw [hv]
  exact flow_fields_nullOk elem lookup ps es srcv ehv hps hes
    (fun s hs => parse_source_nullOk elem ns s (hs ▸ hsrc))
    (error_handler_step_nullOk elem lookup ns st1 ehv st2 heh)

theorem parse_subflow_nullOk (elem : Elem) (lookup : NodeLookup)
    (ns : List (String × String)) (st : List String) (v : JVal)
    (st' : List String) (h : parse_subflow elem lookup ns st = .ok (v, st')) :
    nullOnlyWhen v = true := by
  obtain ⟨ps, es, st1, ehv, st2, hp, heh, hst, hv⟩ :=
    parse_subflow_ok elem lookup ns st v st' h
  obtain ⟨hps, _⟩ := processorsGo_nullOk lookup ns _ 0 st ps es st1 hp
  rw [hv]
  exact subflow_fields_nullOk elem lookup ps ehv hps
    (error_handler_step_nullOk elem lookup ns st1 ehv st2 heh)

theorem document_fields_nullOk (proj ver t : String)
    (flows subflows : List JVal) (assumptions : List String)
    (hfl : nullOnlyWhenList flows = true)
    (hsf : nullOnlyWhenList subflows = true) :
    nullOnlyWhenFields
      (document_fields proj ver t flows subflows assumptions) = true := by
  simp only [document_fields]
  split
  all_goals
    simp_all [nullOnlyWhenFields, nullOnlyWhen, nullOnlyWhenFields_append,
      nullOnlyWhenList_map_s]
  all_goals rfl

theorem parse_mule_xml_nullOk (root : Elem) (ns : List (String × String))
    (proj ver t : String) (doc : JVal)
    (h : parse_mule_xml root ns proj ver t = .ok doc) :
    nullOnlyWhen doc = true := by
  obtain ⟨flows, subflows, st1, assumptions, h1, h2, hdoc⟩ :=
    parse_mule_xml_ok root ns proj ver t doc h
  have hfl : nullOnlyWhenList flows = true := by
    apply nullOnlyWhenList_of_forall
    intro v hv
    obtain ⟨e, _, sta, stb, hrun⟩ :=
      forall₂_mem_right (mapPM_run _ _ _ flows st1 h1) v hv
    exact parse_flow_nullOk e (node_lookup root) ns sta v stb hrun
  have hsf : nullOnlyWhenList subflows = true := by
    apply nullOnlyWhenList_of_forall
    intro v hv
    obtain ⟨e, _, sta, stb, hrun⟩ :=
      forall₂_mem_right (mapPM_run _ _ _ subflows assumptions h2) v hv
    exact parse_subflow_nullOk e (node_lookup root) ns sta v stb hrun
  rw [hdoc]
  exact document_fields_nullOk proj ver t flows subflows assumptions hfl hsf

/-- The parsed document of the C3 fixture (the parse succeeds). -/
def c3Doc : JVal :=
  match parse_mule_xml c3Root routerNs "P" "1.0.0" "T0" with
  | .ok d => d
  | .error _ => JVal.null

/-- C3 amended: in every produced Document the only null-valued field is the
`when` condition of a choice when-branch descriptor — every successful
`parse_mule_xml` output satisfies `nullOnlyWhen`, so a null value can occur
only as the `when` field of a branch object `\x7b"when": null,
"targets": [...]\x7d`; and a choice when-branch always carries a `when`
field, which is exactly null when the `when` element has neither an
`expression` nor a `condition` attribute. -/
theorem c3_null_only_when_branch :
    (∀ (root : Elem) (ns : List (String × String)) (proj ver t : String)
        (doc : JVal),
      parse_mule_xml root ns proj ver t = .ok doc →
      nullOnlyWhen doc = true) ∧
    (∀ (elem : Elem) (lookup : NodeLookup) (nm : List (String × String))
        (st : List String) (w : Elem),
      local_name elem.tag = "choice" → w ∈ elem.children →
      local_name w.tag = "when" →
      ∃ bs es st', extract_branches elem lookup nm st = .ok ((bs, es), st') ∧
        ∃ targets, whenBranchOf w targets ∈ bs ∧
          (pyOr (dictGet w.attrib "expression")
              (dictGet w.attrib "condition") = none →
            JVal.obj [("when", JVal.null),
              ("targets", JVal.arr (targets.map JVal.s))] ∈ bs)) := by
  constructor
  · intro root ns proj ver t doc h
    exact parse_mule_xml_nullOk root ns proj ver t doc h
  · intro elem lookup nm st w hc hw hlw
    obtain ⟨bs, es, st', hrun⟩ := branchesGo_total lookup elem.children st
    obtain ⟨targets, hmem⟩ :=
      branchesGo_when_mem lookup elem.children st w hw hlw bs es st' hrun
    refine ⟨bs, es, st', ?_, targets, hmem, ?_⟩
    · simp [extract_branches, hc, hrun]
    · intro hnone
      have heq : whenBranchOf w targets =
          JVal.obj [("when", JVal.null),
            ("targets", JVal.arr (targets.map JVal.s))] := by
        simp [whenBranchOf, hnone, optStr]
      rwa [heq] at hmem

/-- C3 witness: the concrete fixture document contains a null-`when` branch
descriptor yet satisfies the no-null-elsewhere invariant, and the concrete
attribute-less `when` element produces that null-valued condition. -/
theorem c3_null_only_when_branch_witness :
    nullOnlyWhen c3Doc = true ∧
    (∃ bs es st',
      extract_branches c3ChoiceElem ⟨[], []⟩ routerNs [] = .ok ((bs, es), st') ∧
      ∃ targets, whenBranchOf c3WhenElem targets ∈ bs ∧
        (pyOr (dictGet c3WhenElem.attrib "expression")
            (dictGet c3WhenElem.attrib "condition") = none →
          JVal.obj [("when", JVal.null),
            ("targets", JVal.arr (targets.map JVal.s))] ∈ bs)) :=
  ⟨c3_null_only_when_branch.1 c3Root routerNs "P" "1.0.0" "T0" c3Doc (by rfl),
   c3_null_only_when_branch.2 c3ChoiceElem ⟨[], []⟩ routerNs [] c3WhenElem
     (by rfl) (List.mem_cons_self _ _) (by rfl)⟩

end MuleAnalyzer
